import Mathlib

/-!
# Towers of Hanoi (`src/hanoi.c`): a shallow embedding and its verification

The C program keeps three pegs in the global `Columns[ROWS]`, each a
`LIFO_t` (a 100-cell `uint8_t` array plus a `uint8_t` fill level `Top`), and a
global `int g_MoveDiscCount`.  The embedding below follows the C text
statement by statement:

* `uint8_t` values are natural numbers, reduced modulo 256 wherever the C code
  stores the result of an arithmetic expression into a `uint8_t`;
* `int` is a 32-bit two's complement integer; the increment of the counter
  wraps (`wrapInt`);
* every array access is bounds-checked against the declared array sizes
  (`ROWS` pegs, `LEVELS_MAX` cells).  An access outside the declared bounds is
  undefined behaviour in C; the embedding stops there with
  `Outcome.undefinedBehaviour` and says nothing about what happens next;
* the recursion of `move` is driven by a nesting budget (`moveFuel`): every
  nested call of `move` uses up one unit, and a call that finds the budget
  empty stops with `Outcome.outOfFuel`;
* each call of `moveDisc` made by `move` is recorded (arguments, state before,
  state after).  In the C program these are exactly the places where
  `printState` shows the board;
* the output statements of `move` (compiled unless `SUPPRESS_OUTPUT` is
  defined) change no state and are not part of `moveFuel`.  `findHeight` and
  `printState` are embedded on their own, with the same bounds checks, and are
  studied on the recorded states.
-/

namespace Hanoi

/-! ## Constants (`hanoi.c`, lines 13-17) -/

/-- Maximum number of levels: `#define LEVELS_MAX 100U`. -/
def LEVELS_MAX : Nat := 100

/-- Number of pegs: `#define ROWS 3U`. -/
def ROWS : Nat := 3

/-- Minimum height: `#define MIN_HEIGHT 2U`. -/
def MIN_HEIGHT : Nat := 2

/-- Maximum height: `#define MAX_HEIGHT LEVELS_MAX`. -/
def MAX_HEIGHT : Nat := LEVELS_MAX

/-! ## Machine integers -/

/-- Conversion of an arithmetic result to `uint8_t`. -/
def u8 (x : Nat) : Nat := x % 256

/-- Conversion of an `int` to `unsigned int` (32 bits), as the usual arithmetic
conversions do when an `int` meets an operand with suffix `U`. -/
def toUnsigned (x : Int) : Nat := (x % 4294967296).toNat

/-- Smallest value of `int`. -/
def INT_MIN : Int := -2147483648

/-- Largest value of `int`. -/
def INT_MAX : Int := 2147483647

/-- Reduction of a mathematical integer into the range of a 32-bit `int`
(two's complement wrap-around). -/
def wrapInt (x : Int) : Int := (x + 2147483648) % 4294967296 - 2147483648

/-! ## Outcomes -/

/-- Result of running a piece of the program: a normal result, an access
outside the declared bounds of an array (undefined behaviour in C, nothing is
said about the state afterwards), or an exhausted nesting budget. -/
inductive Outcome (α : Type) where
  | ok (a : α)
  | undefinedBehaviour
  | outOfFuel
  deriving DecidableEq

/-- Sequencing: the second part runs only when the first ended normally. -/
def Outcome.bind {α β : Type} : Outcome α → (α → Outcome β) → Outcome β
  | .ok a, f => f a
  | .undefinedBehaviour, _ => .undefinedBehaviour
  | .outOfFuel, _ => .outOfFuel

/-- Whether a run ended normally. -/
def Outcome.isOk {α : Type} : Outcome α → Bool
  | .ok _ => true
  | _ => false

/-! ## State (`hanoi.c`, lines 24-40) -/

/-- The type `LIFO_t`: the cells `Array[0] .. Array[LEVELS_MAX-1]` (bottom to top) and
the fill level `Top`.  Only indices below `LEVELS_MAX` are cells of the C
array; the accessors below refuse every other index. -/
structure LIFO_t where
  Array : Nat → Nat
  Top : Nat

/-- The globals of the program: `Columns[ROWS]` (only indices below `ROWS` are
pegs) and `g_MoveDiscCount`. -/
structure Machine where
  Columns : Nat → LIFO_t
  g_MoveDiscCount : Int

/-- Read `pState[r].Top`. -/
def loadTop (m : Machine) (r : Nat) : Outcome Nat :=
  if r < ROWS then .ok (m.Columns r).Top else .undefinedBehaviour

/-- Write `pState[r].Top = v`. -/
def storeTop (m : Machine) (r v : Nat) : Outcome Machine :=
  if r < ROWS then
    .ok { m with Columns := fun k =>
      if k = r then { Array := (m.Columns r).Array, Top := v } else m.Columns k }
  else .undefinedBehaviour

/-- Read `pState[r].Array[i]`. -/
def loadCell (m : Machine) (r i : Nat) : Outcome Nat :=
  if r < ROWS ∧ i < LEVELS_MAX then .ok ((m.Columns r).Array i) else .undefinedBehaviour

/-- Write `pState[r].Array[i] = v`. -/
def storeCell (m : Machine) (r i v : Nat) : Outcome Machine :=
  if r < ROWS ∧ i < LEVELS_MAX then
    .ok { m with Columns := fun k =>
      if k = r then
        { Array := fun j => if j = i then v else (m.Columns r).Array j,
          Top := (m.Columns r).Top }
      else m.Columns k }
  else .undefinedBehaviour

/-- The statement `g_MoveDiscCount++` on a 32-bit `int`. -/
def incrCount (m : Machine) : Machine :=
  { m with g_MoveDiscCount := wrapInt (m.g_MoveDiscCount + 1) }

/-! ## `moveDisc` (lines 183-201) -/

/-- The function `moveDisc(pState, src, dst)`: the two `Top` values are read first;
when the source holds a disc, its top cell is read and cleared, its `Top`
lowered, the disc written at the destination's old `Top` and that `Top` raised;
the counter is incremented in every case. -/
def moveDisc (m : Machine) (src dst : Nat) : Outcome Machine :=
  (loadTop m src).bind fun srcTop =>
  (loadTop m dst).bind fun dstTop =>
  (if srcTop > 0 then
      (loadCell m src (srcTop - 1)).bind fun disc =>
      (storeCell m src (srcTop - 1) 0).bind fun m1 =>
      (loadTop m1 src).bind fun t1 =>
      (storeTop m1 src (u8 (t1 + 255))).bind fun m2 =>
      (storeCell m2 dst dstTop disc).bind fun m3 =>
      (loadTop m3 dst).bind fun t3 =>
      storeTop m3 dst (u8 (t3 + 1))
    else .ok m).bind fun m4 =>
  .ok (incrCount m4)

/-! ## `findRow` (lines 138-146) -/

/-- The `do ... while` loop of `findRow`; the first argument bounds the number
of iterations. -/
def findRowLoop : Nat → Nat → Nat → Nat → Outcome Nat
  | 0, _, _, _ => .outOfFuel
  | fuel + 1, deny1, deny2, ret =>
    let ret1 := u8 ((ret + 1) % ROWS)
    if ret1 = deny1 ∨ ret1 = deny2 then findRowLoop fuel deny1 deny2 ret1 else .ok ret1

/-- The function `findRow(deny1, deny2)`: the loop starts from `ret = deny1`; three
iterations are allowed. -/
def findRow (deny1 deny2 : Nat) : Outcome Nat := findRowLoop 3 deny1 deny2 deny1

/-! ## `move` (lines 148-181) and `solve` (lines 133-136) -/

/-- One executed call of `moveDisc`: its arguments, the state it found and the
state it left.  `move` shows the board (`printState`) right after each one. -/
structure Call where
  src : Nat
  dst : Nat
  pre : Machine
  post : Machine

/-- The argument `elements - 1U` as received by the callee: the subtraction is
done in `unsigned int`, the result is converted to `uint8_t`. -/
def elementsMinusOne (elements : Nat) : Nat :=
  u8 ((elements + 4294967295) % 4294967296)

/-- The function `move(pState, src, dst, elements)` with a nesting budget: the first
argument is the number of nested `move` calls still allowed.  Returns the final
state and the `moveDisc` calls made, in order. -/
def moveFuel : Nat → Machine → Nat → Nat → Nat → Outcome (Machine × List Call)
  | 0, _, _, _, _ => .outOfFuel
  | fuel + 1, m, src, dst, elements =>
    if elements = 1 then
      (moveDisc m src dst).bind fun m1 =>
      .ok (m1, [⟨src, dst, m, m1⟩])
    else
      (findRow src dst).bind fun dstNew =>
      (moveFuel fuel m src dstNew (elementsMinusOne elements)).bind fun r1 =>
      (moveDisc r1.1 src dst).bind fun m2 =>
      (moveFuel fuel m2 dstNew dst (elementsMinusOne elements)).bind fun r2 =>
      .ok (r2.1, r1.2 ++ [⟨src, dst, r1.1, m2⟩] ++ r2.2)

/-- The function `move` as called in the program.  `elements` is a `uint8_t`; 256 nested
calls are enough for each of its values (see `moveFuel_enough`). -/
def move (m : Machine) (src dst elements : Nat) : Outcome (Machine × List Call) :=
  moveFuel 256 m src dst elements

/-- The function `solve(pState, height)`: the `int height` is converted to the `uint8_t`
parameter `elements`. -/
def solve (m : Machine) (height : Int) : Outcome (Machine × List Call) :=
  move m 0 (ROWS - 1) (height % 256).toNat

/-! ## `main` (lines 95-131) -/

/-- The call `memset(Columns, 0, sizeof(Columns))`. -/
def clearColumns (m : Machine) : Machine :=
  { m with Columns := fun _ => { Array := fun _ => 0, Top := 0 } }

/-- The loop `for (i = 0; i < height; i++) Columns[0].Array[i] = height - i;`:
first argument = iterations left, second = `i`. -/
def initLoop (height : Int) : Nat → Nat → Machine → Outcome Machine
  | 0, _, m => .ok m
  | k + 1, i, m =>
    (storeCell m 0 i ((height - (i : Int)) % 256).toNat).bind fun m1 =>
    initLoop height k (i + 1) m1

/-- Lines 116-124 of `main`: clear the pegs, build the tower on peg 0, set its
`Top`, reset the counter. -/
def setup (m : Machine) (height : Int) : Outcome Machine :=
  (initLoop height height.toNat 0 (clearColumns m)).bind fun m1 =>
  (storeTop m1 0 (height % 256).toNat).bind fun m2 =>
  .ok { m2 with g_MoveDiscCount := 0 }

/-- What a run of `main` did. -/
inductive MainResult where
  /-- Case `argc < 2`: usage message. -/
  | usage (final : Machine)
  /-- Case `height < MIN_HEIGHT`: error message, nothing else. -/
  | rejectedLow (final : Machine)
  /-- Case `height > MAX_HEIGHT`: error message, nothing else. -/
  | rejectedHigh (final : Machine)
  /-- The pegs were set up and `solve` was called: the state handed to `solve`,
  the `moveDisc` calls, the final state, and the number printed by
  `printf("Final state in %d moves:", g_MoveDiscCount)`. -/
  | solved (start : Machine) (calls : List Call) (final : Machine) (reported : Int)

/-- The function `main`, given the globals as they are at program start and the value of
`atoi(argv[1])` (`none` when `argc < 2`).  The comparisons with `MIN_HEIGHT`
and `MAX_HEIGHT` are unsigned, because both constants carry the suffix `U`. -/
def main (m : Machine) (arg : Option Int) : Outcome MainResult :=
  match arg with
  | none => .ok (.usage m)
  | some height =>
    if toUnsigned height < MIN_HEIGHT then .ok (.rejectedLow m)
    else if toUnsigned height > MAX_HEIGHT then .ok (.rejectedHigh m)
    else
      (setup m height).bind fun m0 =>
      (solve m0 height).bind fun r =>
      .ok (.solved m0 r.2 r.1 r.1.g_MoveDiscCount)

/-- The globals at program start: `Columns` is zero-initialised, the counter
is initialised to 1 (line 40). -/
def startMachine : Machine :=
  { Columns := fun _ => { Array := fun _ => 0, Top := 0 }, g_MoveDiscCount := 1 }

/-! ## `findHeight` (lines 203-217) and `printState` (lines 219-237) -/

/-- The inner loop of `findHeight` on peg `i`,
`for (j = 0; j < LEVELS_MAX; j++) if (Array[j] > ret) ret = Array[j];`:
first argument = iterations left, second = `j`, third = `ret`. -/
def findHeightCells (m : Machine) (i : Nat) : Nat → Nat → Nat → Outcome Nat
  | 0, _, ret => .ok ret
  | k + 1, j, ret =>
    (loadCell m i j).bind fun v =>
    findHeightCells m i k (j + 1) (if v > ret then v else ret)

/-- The outer loop of `findHeight`, `for (i = 0; i < ROWS; i++)`: first
argument = iterations left, second = `i`, third = `ret`. -/
def findHeightRows (m : Machine) : Nat → Nat → Nat → Outcome Nat
  | 0, _, ret => .ok ret
  | k + 1, i, ret =>
    (findHeightCells m i LEVELS_MAX 0 ret).bind fun ret1 =>
    findHeightRows m k (i + 1) ret1

/-- The function `findHeight(pState)`: the largest cell value over all cells of
all pegs, starting from `ret = 0`. -/
def findHeight (m : Machine) : Outcome Nat := findHeightRows m ROWS 0 0

/-- One printed line of `printState`: the cells `pState[j].Array[idx]` for
`j = 0 .. ROWS-1`; first argument = iterations left, second = `j`. -/
def printLine (m : Machine) (idx : Nat) : Nat → Nat → Outcome (List Nat)
  | 0, _ => .ok []
  | k + 1, j =>
    (loadCell m j idx).bind fun v =>
    (printLine m idx k (j + 1)).bind fun vs =>
    .ok (v :: vs)

/-- The loop over the lines of `printState`,
`for (i = 0; i < height; i++)`, line `i` showing index `height - 1 - i`:
first argument = iterations left, second = `i`. -/
def printLines (m : Machine) (height : Nat) : Nat → Nat → Outcome (List (List Nat))
  | 0, _ => .ok []
  | k + 1, i =>
    (printLine m (height - 1 - i) ROWS 0).bind fun line =>
    (printLines m height k (i + 1)).bind fun lines =>
    .ok (line :: lines)

/-- The function `printState(pState)`: the numbers it prints, line by line from
the top; `height` is what `findHeight` returns. -/
def printState (m : Machine) : Outcome (List (List Nat)) :=
  (findHeight m).bind fun height => printLines m height height 0

/-! ## Reference sequence of moves -/

/-- The cells `a (k-1), ..., a 0`: the contents of a peg with fill level `k`,
listed from the top disc down to the bottom disc. -/
def cellsBelow (a : Nat → Nat) : Nat → List Nat
  | 0 => []
  | k + 1 => a k :: cellsBelow a k

/-- The discs on a peg, top first. -/
def LIFO_t.discs (c : LIFO_t) : List Nat := cellsBelow c.Array c.Top

/-- The discs on peg `r` of a machine state, top first. -/
def Machine.discs (m : Machine) (r : Nat) : List Nat := (m.Columns r).discs

/-- A peg is strictly decreasing from bottom to top (cells `0 .. Top-1`). -/
def LIFO_t.Descending (c : LIFO_t) : Prop :=
  ∀ i j, i < j → j < c.Top → c.Array j < c.Array i

/-- The states shown by `printState` around a run: the state before it and the
state after each `moveDisc` call. -/
def statesOf (m : Machine) (calls : List Call) : List Machine :=
  m :: calls.map Call.post

/-- The state `moveDisc` leaves when it moves a disc between two different pegs
without leaving the arrays: the top cell of `src` is cleared and its `Top`
lowered, the disc is written at the old `Top` of `dst` and that `Top` raised,
the counter is incremented. -/
def discMoved (m : Machine) (src dst : Nat) : Machine :=
  { Columns := fun k =>
      if k = dst then
        { Array := fun j =>
            if j = (m.Columns dst).Top then (m.Columns src).Array ((m.Columns src).Top - 1)
            else (m.Columns dst).Array j,
          Top := (m.Columns dst).Top + 1 }
      else if k = src then
        { Array := fun j => if j = (m.Columns src).Top - 1 then 0 else (m.Columns src).Array j,
          Top := (m.Columns src).Top - 1 }
      else m.Columns k,
    g_MoveDiscCount := wrapInt (m.g_MoveDiscCount + 1) }

/-- A recorded call that is a legal move of the puzzle and stays inside the
arrays: two different pegs, a source that holds a disc, a destination with a
free cell, the moved disc smaller than every disc on the destination; and the
recorded state after the call is the one `moveDisc` produces. -/
def Call.Legal (c : Call) : Prop :=
  c.src < ROWS ∧ c.dst < ROWS ∧ c.src ≠ c.dst ∧
  0 < (c.pre.Columns c.src).Top ∧ (c.pre.Columns c.src).Top ≤ LEVELS_MAX ∧
  (c.pre.Columns c.dst).Top < LEVELS_MAX ∧
  (∀ y ∈ c.pre.discs c.dst,
    (c.pre.Columns c.src).Array ((c.pre.Columns c.src).Top - 1) < y) ∧
  moveDisc c.pre c.src c.dst = .ok c.post

/-- The recorded calls follow one another: the first starts in `m`, each
starts in the state the previous one left, the last leaves the final state. -/
def Chain : Machine → List Call → Machine → Prop
  | m, [], final => m = final
  | m, c :: cs, final => c.pre = m ∧ Chain c.post cs final

/-- The tower of height `h` stands on peg 0 and the other two pegs are empty:
peg 0 holds `h, h-1, ..., 1` from bottom to top with `Top = h`, pegs 1 and 2
have `Top = 0`. -/
def Machine.IsTower (h : Nat) (m : Machine) : Prop :=
  (m.Columns 0).Top = h ∧ (∀ i, i < h → (m.Columns 0).Array i = h - i) ∧
  (m.Columns 1).Top = 0 ∧ (m.Columns 2).Top = 0

/-- The state `main` hands to `solve` for height `h`: all cells cleared, the
tower written on peg 0, the counter reset. -/
def initialMachine (h : Nat) : Machine :=
  { Columns := fun k =>
      if k = 0 then { Array := fun i => if i < h then h - i else 0, Top := h }
      else { Array := fun _ => 0, Top := 0 },
    g_MoveDiscCount := 0 }

/-- All discs of the three pegs. -/
def Machine.allDiscs (m : Machine) : List Nat := m.discs 0 ++ m.discs 1 ++ m.discs 2

/-- The state `moveDisc` leaves when source and destination are the same peg
`s`, that peg holds a disc and has a free cell above it: the top cell is
cleared, the disc is written at index `Top` (read before the clearing), `Top`
is lowered and raised again, the counter is incremented. -/
def selfMoved (m : Machine) (s : Nat) : Machine :=
  { Columns := fun k =>
      if k = s then
        { Array := fun j =>
            if j = (m.Columns s).Top then (m.Columns s).Array ((m.Columns s).Top - 1)
            else if j = (m.Columns s).Top - 1 then 0
            else (m.Columns s).Array j,
          Top := (m.Columns s).Top }
      else m.Columns k,
    g_MoveDiscCount := wrapInt (m.g_MoveDiscCount + 1) }

/-- Zero padding: on each of the three pegs every cell at or above `Top` is 0
and every cell below `Top` is non-zero. -/
def Machine.Padded (m : Machine) : Prop :=
  ∀ r, r < ROWS →
    (∀ i, (m.Columns r).Top ≤ i → (m.Columns r).Array i = 0) ∧
    (∀ i, i < (m.Columns r).Top → (m.Columns r).Array i ≠ 0)

/-- A state with a stale value above `Top`: the tower `2, 1` on peg 0, pegs 1
and 2 empty (`Top = 0`), and the value 9 left in cell 0 of peg 1. -/
def staleCellMachine : Machine :=
  { Columns := fun k =>
      if k = 0 then { Array := fun i => if i < 2 then 2 - i else 0, Top := 2 }
      else if k = 1 then { Array := fun i => if i = 0 then 9 else 0, Top := 0 }
      else { Array := fun _ => 0, Top := 0 },
    g_MoveDiscCount := 0 }

/-- A state with discs larger than the array: the discs 200 and 150 on peg 0
(bottom to top), pegs 1 and 2 empty, every other cell 0. -/
def largeDiscMachine : Machine :=
  { Columns := fun k =>
      if k = 0 then
        { Array := fun i => if i = 0 then 200 else if i = 1 then 150 else 0, Top := 2 }
      else { Array := fun _ => 0, Top := 0 },
    g_MoveDiscCount := 0 }

/-! # Verification -/

/-! ## Basic facts -/

theorem wrapInt_add_left (x y : Int) : wrapInt (wrapInt x + y) = wrapInt (x + y) := by
  unfold wrapInt; omega

theorem wrapInt_of_range (x : Int) (h1 : INT_MIN ≤ x) (h2 : x ≤ INT_MAX) : wrapInt x = x := by
  unfold wrapInt; unfold INT_MIN at h1; unfold INT_MAX at h2; omega

theorem findRow_third (a b : Nat) (ha : a < 3) (hb : b < 3) (hab : a ≠ b) :
    findRow a b = .ok (3 - a - b) := by
  interval_cases a <;> interval_cases b <;> first | (exact absurd rfl hab) | decide

theorem cellsBelow_length (a : Nat → Nat) (k : Nat) : (cellsBelow a k).length = k := by
  induction k with
  | zero => rfl
  | succ k ih => simp [cellsBelow, ih]

theorem cellsBelow_congr (a b : Nat → Nat) (k : Nat) (h : ∀ i, i < k → a i = b i) :
    cellsBelow a k = cellsBelow b k := by
  induction k with
  | zero => rfl
  | succ k ih =>
    simp only [cellsBelow]
    rw [h k (Nat.lt_succ_self k), ih (fun i hi => h i (Nat.lt_succ_of_lt hi))]

theorem discs_length (m : Machine) (r : Nat) : (m.discs r).length = (m.Columns r).Top := by
  simp [Machine.discs, LIFO_t.discs, cellsBelow_length]

theorem discs_cons (m : Machine) (r d : Nat) (rest : List Nat) (h : m.discs r = d :: rest) :
    0 < (m.Columns r).Top ∧ (m.Columns r).Array ((m.Columns r).Top - 1) = d ∧
    cellsBelow (m.Columns r).Array ((m.Columns r).Top - 1) = rest := by
  unfold Machine.discs LIFO_t.discs at h
  cases hk : (m.Columns r).Top with
  | zero => rw [hk] at h; simp [cellsBelow] at h
  | succ k =>
    rw [hk] at h
    simp only [cellsBelow, List.cons.injEq] at h
    simp [h.1, h.2]

/-! ## One step: `moveDisc` -/

theorem moveDisc_eq (m : Machine) (src dst : Nat) (hs : src < 3) (hd : dst < 3)
    (hne : src ≠ dst) (hpos : 0 < (m.Columns src).Top)
    (hle : (m.Columns src).Top ≤ 100) (hcap : (m.Columns dst).Top < 100) :
    moveDisc m src dst = .ok (discMoved m src dst) := by
  have h1 : (m.Columns src).Top - 1 < 100 := by omega
  have h2 : ((m.Columns src).Top + 255) % 256 = (m.Columns src).Top - 1 := by omega
  have h3 : ((m.Columns dst).Top + 1) % 256 = (m.Columns dst).Top + 1 := by omega
  have hne2 : dst ≠ src := fun h => hne h.symm
  simp only [moveDisc, loadTop, loadCell, storeCell, storeTop, Outcome.bind, ROWS, LEVELS_MAX,
    hs, hd, hpos, h1, hcap, if_true, and_self, gt_iff_lt, u8, incrCount, hne, hne2, if_false,
    h2, h3, discMoved]
  congr 2
  funext k
  by_cases hk : k = dst
  · subst hk; simp [hne2]
  · by_cases hk2 : k = src
    · subst hk2; simp [hne]
    · simp [hk, hk2]

theorem discMoved_discs_src (m : Machine) (src dst d : Nat) (rest : List Nat)
    (hne : src ≠ dst) (h : m.discs src = d :: rest) :
    (discMoved m src dst).discs src = rest := by
  obtain ⟨_, _, h3⟩ := discs_cons m src d rest h
  simp only [Machine.discs, LIFO_t.discs, discMoved, hne, if_false, if_true]
  rw [← h3]
  apply cellsBelow_congr
  intro i hi
  have : i ≠ (m.Columns src).Top - 1 := by omega
  simp [this]

theorem discMoved_discs_dst (m : Machine) (src dst d : Nat) (rest : List Nat)
    (h : m.discs src = d :: rest) :
    (discMoved m src dst).discs dst = d :: m.discs dst := by
  obtain ⟨_, h2, _⟩ := discs_cons m src d rest h
  simp only [Machine.discs, LIFO_t.discs, discMoved, if_true, cellsBelow, h2, List.cons.injEq,
    true_and]
  apply cellsBelow_congr
  intro i hi
  have : i ≠ (m.Columns dst).Top := by omega
  simp [this]

theorem discMoved_discs_other (m : Machine) (src dst r : Nat) (h1 : r ≠ src) (h2 : r ≠ dst) :
    (discMoved m src dst).discs r = m.discs r := by
  simp [Machine.discs, discMoved, h1, h2]

theorem discMoved_count (m : Machine) (src dst : Nat) :
    (discMoved m src dst).g_MoveDiscCount = wrapInt (m.g_MoveDiscCount + 1) := rfl

theorem chain_append (a b c : Machine) (l1 l2 : List Call) (h1 : Chain a l1 b)
    (h2 : Chain b l2 c) : Chain a (l1 ++ l2) c := by
  induction l1 generalizing a with
  | nil => simp only [Chain] at h1; subst h1; simpa using h2
  | cons x xs ih =>
    simp only [Chain] at h1
    simp only [List.cons_append, Chain]
    exact ⟨h1.1, ih _ h1.2⟩

/-! ## The recursion: transfer of a sub-tower -/

theorem moveFuel_transfer_aux (k : Nat) : ∀ (fuel : Nat) (m : Machine) (src dst : Nat)
    (t rest : List Nat),
    k + 1 ≤ 255 → k + 1 ≤ fuel → src < 3 → dst < 3 → src ≠ dst →
    m.discs src = t ++ rest → t.length = k + 1 → t.Pairwise (· < ·) →
    (∀ x ∈ t, ∀ y ∈ rest, x < y) →
    (∀ x ∈ t, ∀ y ∈ m.discs dst, x < y) →
    (∀ x ∈ t, ∀ y ∈ m.discs (3 - src - dst), x < y) →
    (m.discs src).length ≤ 100 →
    (m.discs dst).length + (k + 1) ≤ 100 →
    (m.discs (3 - src - dst)).length + (k + 1) ≤ 101 →
    ∃ final calls, moveFuel fuel m src dst (k + 1) = .ok (final, calls) ∧
      final.discs src = rest ∧ final.discs dst = t ++ m.discs dst ∧
      final.discs (3 - src - dst) = m.discs (3 - src - dst) ∧
      calls.length = 2 ^ (k + 1) - 1 ∧
      final.g_MoveDiscCount = wrapInt (m.g_MoveDiscCount + ((2 : Int) ^ (k + 1) - 1)) ∧
      (∀ c ∈ calls, c.Legal) ∧ Chain m calls final := by
  induction k with
  | zero =>
    intro fuel m src dst t rest _ hfuel hs hd hne hsrc hlen _ _ hdst _ hcs hcd _
    obtain ⟨f, rfl⟩ : ∃ f, fuel = f + 1 := ⟨fuel - 1, by omega⟩
    obtain ⟨d, rfl⟩ : ∃ d, t = [d] := by
      match t, hlen with
      | [d], _ => exact ⟨d, rfl⟩
    simp only [List.singleton_append] at hsrc
    obtain ⟨hpos, htop, _⟩ := discs_cons m src d rest hsrc
    have hle : (m.Columns src).Top ≤ 100 := by rw [← discs_length]; exact hcs
    have hcap : (m.Columns dst).Top < 100 := by rw [← discs_length]; omega
    have hmd := moveDisc_eq m src dst hs hd hne hpos hle hcap
    refine ⟨discMoved m src dst, [⟨src, dst, m, discMoved m src dst⟩], ?_, ?_, ?_, ?_, ?_, ?_,
      ?_, ?_⟩
    · simp [moveFuel, hmd, Outcome.bind]
    · exact discMoved_discs_src m src dst d rest hne hsrc
    · simpa using discMoved_discs_dst m src dst d rest hsrc
    · exact discMoved_discs_other m src dst _ (by omega) (by omega)
    · simp
    · simp [discMoved_count]
    · intro c hc
      simp only [List.mem_singleton] at hc
      subst hc
      refine ⟨hs, hd, hne, hpos, hle, hcap, ?_, hmd⟩
      intro y hy
      show (m.Columns src).Array ((m.Columns src).Top - 1) < y
      rw [htop]
      exact hdst d (by simp) y hy
    · simp [Chain]
  | succ k ih =>
    intro fuel m src dst t rest hk hfuel hs hd hne hsrc hlen hsorted hrest hdst haux hcs hcd hca
    obtain ⟨f, rfl⟩ : ∃ f, fuel = f + 1 := ⟨fuel - 1, by omega⟩
    obtain ⟨t1, d, rfl⟩ : ∃ t1 d, t = t1 ++ [d] := by
      rcases List.eq_nil_or_concat t with h | ⟨t1, d, h⟩
      · subst h; simp at hlen
      · exact ⟨t1, d, by simpa using h⟩
    have hlen1 : t1.length = k + 1 := by simpa using hlen
    rw [List.pairwise_append] at hsorted
    obtain ⟨hsorted1, _, hlt⟩ := hsorted
    -- the third peg
    have hfr := findRow_third src dst hs hd hne
    have ha3 : 3 - src - dst < 3 := by omega
    have hasrc : src ≠ 3 - src - dst := by omega
    have hadst : 3 - src - dst ≠ dst := by omega
    have e1 : 3 - src - (3 - src - dst) = dst := by omega
    have e2 : 3 - (3 - src - dst) - dst = src := by omega
    have hel : elementsMinusOne (k + 1 + 1) = k + 1 := by
      unfold elementsMinusOne u8; omega
    have hsrc1 : m.discs src = t1 ++ (d :: rest) := by simp [hsrc]
    -- first recursive call: the upper discs go to the third peg
    obtain ⟨m1, calls1, hrun1, h1src, h1aux, h1dst, h1len, h1cnt, h1legal, h1chain⟩ :=
      ih f m src (3 - src - dst) t1 (d :: rest) (by omega) (by omega) hs ha3 hasrc hsrc1 hlen1
        hsorted1
        (by
          intro x hx y hy
          rcases List.mem_cons.1 hy with h | h
          · subst h; exact hlt x hx y (by simp)
          · exact hrest x (by simp [hx]) y h)
        (fun x hx y hy => haux x (by simp [hx]) y hy)
        (by rw [e1]; exact fun x hx y hy => hdst x (by simp [hx]) y hy)
        hcs (by omega) (by rw [e1]; omega)
    rw [e1] at h1dst
    -- the bottom disc goes to the destination
    obtain ⟨hpos, htop, _⟩ := discs_cons m1 src d rest h1src
    have hlsrc : (m.discs src).length = k + 1 + 1 + rest.length := by
      rw [hsrc]; simp [hlen1]; omega
    have hle : (m1.Columns src).Top ≤ 100 := by
      rw [← discs_length, h1src]; simp; omega
    have hcap : (m1.Columns dst).Top < 100 := by
      rw [← discs_length, h1dst]; omega
    have hmd := moveDisc_eq m1 src dst hs hd hne hpos hle hcap
    have h2src := discMoved_discs_src m1 src dst d rest hne h1src
    have h2dst := discMoved_discs_dst m1 src dst d rest h1src
    have h2aux := discMoved_discs_other m1 src dst (3 - src - dst) (Ne.symm hasrc) hadst
    rw [h1dst] at h2dst
    rw [h1aux] at h2aux
    -- second recursive call: the upper discs go from the third peg to the destination
    obtain ⟨m3, calls3, hrun3, h3aux, h3dst, h3src, h3len, h3cnt, h3legal, h3chain⟩ :=
      ih f (discMoved m1 src dst) (3 - src - dst) dst t1 (m.discs (3 - src - dst)) (by omega)
        (by omega) ha3 hd hadst h2aux hlen1 hsorted1
        (fun x hx y hy => haux x (by simp [hx]) y hy)
        (by
          rw [h2dst]
          intro x hx y hy
          rcases List.mem_cons.1 hy with h | h
          · subst h; exact hlt x hx y (by simp)
          · exact hdst x (by simp [hx]) y h)
        (by rw [e2, h2src]; exact fun x hx y hy => hrest x (by simp [hx]) y hy)
        (by rw [h2aux]; simp [hlen1]; omega)
        (by rw [h2dst]; simp; omega)
        (by rw [e2, h2src]; omega)
    rw [e2] at h3src
    refine ⟨m3, calls1 ++ [⟨src, dst, m1, discMoved m1 src dst⟩] ++ calls3, ?_, ?_, ?_, ?_, ?_,
      ?_, ?_, ?_⟩
    · have hne1 : ¬ (k + 1 + 1 = 1) := by omega
      simp only [moveFuel, hne1, if_false, hfr, Outcome.bind, hel, hrun1, hmd, hrun3]
    · rw [h3src, h2src]
    · rw [h3dst, h2dst]; simp
    · exact h3aux
    · simp only [List.length_append, List.length_singleton, h1len, h3len]
      have : 1 ≤ 2 ^ (k + 1) := Nat.one_le_two_pow
      rw [pow_succ 2 (k + 1)]
      omega
    · rw [h3cnt, discMoved_count, h1cnt, wrapInt_add_left, add_assoc, wrapInt_add_left]
      have e : m.g_MoveDiscCount + ((2 : Int) ^ (k + 1) - 1) + (1 + ((2 : Int) ^ (k + 1) - 1))
          = m.g_MoveDiscCount + ((2 : Int) ^ (k + 1 + 1) - 1) := by
        rw [pow_succ (2 : Int) (k + 1)]; ring
      rw [e]
    · intro c hc
      simp only [List.mem_append, List.mem_singleton] at hc
      rcases hc with (hc | hc) | hc
      · exact h1legal c hc
      · subst hc
        refine ⟨hs, hd, hne, hpos, hle, hcap, ?_, hmd⟩
        intro y hy
        show (m1.Columns src).Array ((m1.Columns src).Top - 1) < y
        rw [htop]
        have hy2 : y ∈ m.discs dst := by rw [← h1dst]; exact hy
        exact hdst d (by simp) y hy2
      · exact h3legal c hc
    · apply chain_append m (discMoved m1 src dst) m3
      · apply chain_append m m1 _ calls1 _ h1chain
        simp [Chain]
      · exact h3chain

/-! ## Pegs as lists -/

theorem mem_cellsBelow (a : Nat → Nat) (k y : Nat) :
    y ∈ cellsBelow a k ↔ ∃ i, i < k ∧ a i = y := by
  induction k with
  | zero => simp [cellsBelow]
  | succ k ih =>
    simp only [cellsBelow, List.mem_cons, ih]
    constructor
    · rintro (h | ⟨i, hi, h⟩)
      · exact ⟨k, Nat.lt_succ_self k, h.symm⟩
      · exact ⟨i, Nat.lt_succ_of_lt hi, h⟩
    · rintro ⟨i, hi, h⟩
      rcases Nat.lt_succ_iff_lt_or_eq.1 hi with h1 | h1
      · exact Or.inr ⟨i, h1, h⟩
      · subst h1; exact Or.inl h.symm

theorem cellsBelow_pairwise (a : Nat → Nat) (k : Nat) :
    (cellsBelow a k).Pairwise (· < ·) ↔ ∀ i j, i < j → j < k → a j < a i := by
  induction k with
  | zero => simp [cellsBelow]
  | succ k ih =>
    simp only [cellsBelow, List.pairwise_cons, ih, mem_cellsBelow]
    constructor
    · rintro ⟨h1, h2⟩ i j hij hj
      rcases Nat.lt_succ_iff_lt_or_eq.1 hj with h | h
      · exact h2 i j hij h
      · subst h; exact h1 (a i) ⟨i, hij, rfl⟩
    · intro h
      refine ⟨?_, fun i j hij hj => h i j hij (Nat.lt_succ_of_lt hj)⟩
      rintro y ⟨i, hi, rfl⟩
      exact h i k hi (Nat.lt_succ_self k)

theorem descending_iff (c : LIFO_t) : c.Descending ↔ c.discs.Pairwise (· < ·) := by
  unfold LIFO_t.Descending LIFO_t.discs
  exact (cellsBelow_pairwise c.Array c.Top).symm

theorem cellsBelow_eq_range (a : Nat → Nat) (k : Nat) : ∀ s : Nat,
    cellsBelow a k = List.range' s k ↔ ∀ i, i < k → a i = s + (k - 1 - i) := by
  induction k with
  | zero => intro s; simp [cellsBelow]
  | succ k ih =>
    intro s
    simp only [cellsBelow, List.range'_succ, List.cons.injEq, ih (s + 1)]
    constructor
    · rintro ⟨h1, h2⟩ i hi
      rcases Nat.lt_succ_iff_lt_or_eq.1 hi with h | h
      · rw [h2 i h]; omega
      · subst h; rw [h1]; omega
    · intro h
      refine ⟨by rw [h k (Nat.lt_succ_self k)]; omega, fun i hi => ?_⟩
      rw [h i (Nat.lt_succ_of_lt hi)]; omega

theorem discs_eq_tower (m : Machine) (r h : Nat) :
    m.discs r = List.range' 1 h ↔
      (m.Columns r).Top = h ∧ ∀ i, i < h → (m.Columns r).Array i = h - i := by
  constructor
  · intro hd
    have hT : (m.Columns r).Top = h := by
      rw [← discs_length, hd, List.length_range']
    refine ⟨hT, fun i hi => ?_⟩
    unfold Machine.discs LIFO_t.discs at hd
    rw [hT] at hd
    rw [(cellsBelow_eq_range _ h 1).1 hd i hi]; omega
  · rintro ⟨hT, hc⟩
    unfold Machine.discs LIFO_t.discs
    rw [hT]
    exact (cellsBelow_eq_range _ h 1).2 (fun i hi => by rw [hc i hi]; omega)

theorem discs_eq_nil (m : Machine) (r : Nat) : m.discs r = [] ↔ (m.Columns r).Top = 0 := by
  rw [← discs_length, List.length_eq_zero]

theorem isTower_discs (h : Nat) (m : Machine) (hm : m.IsTower h) :
    m.discs 0 = List.range' 1 h ∧ m.discs 1 = [] ∧ m.discs 2 = [] :=
  ⟨(discs_eq_tower m 0 h).2 ⟨hm.1, hm.2.1⟩, (discs_eq_nil m 1).2 hm.2.2.1,
    (discs_eq_nil m 2).2 hm.2.2.2⟩

/-! ## Legal calls and what they preserve -/

theorem legal_effect (c : Call) (hc : c.Legal) :
    ∃ d rest, c.pre.discs c.src = d :: rest ∧ (∀ y ∈ c.pre.discs c.dst, d < y) ∧
      c.post.discs c.src = rest ∧ c.post.discs c.dst = d :: c.pre.discs c.dst ∧
      (∀ r, r ≠ c.src → r ≠ c.dst → c.post.discs r = c.pre.discs r) ∧
      c.post = discMoved c.pre c.src c.dst := by
  obtain ⟨hs, hd, hne, hpos, hle, hcap, hlt, hrun⟩ := hc
  have heq : c.post = discMoved c.pre c.src c.dst := by
    have h := moveDisc_eq c.pre c.src c.dst hs hd hne hpos hle hcap
    rw [hrun] at h
    exact Outcome.ok.inj h
  obtain ⟨k, hk⟩ : ∃ k, (c.pre.Columns c.src).Top = k + 1 := ⟨_, (Nat.succ_pred_eq_of_pos hpos).symm⟩
  have hdiscs : c.pre.discs c.src =
      (c.pre.Columns c.src).Array ((c.pre.Columns c.src).Top - 1) ::
        cellsBelow (c.pre.Columns c.src).Array k := by
    simp [Machine.discs, LIFO_t.discs, hk, cellsBelow]
  refine ⟨_, _, hdiscs, hlt, ?_, ?_, ?_, heq⟩
  · rw [heq]; exact discMoved_discs_src _ _ _ _ _ hne hdiscs
  · rw [heq]; exact discMoved_discs_dst _ _ _ _ _ hdiscs
  · intro r h1 h2; rw [heq]; exact discMoved_discs_other _ _ _ _ h1 h2

theorem chain_invariant (P : Machine → Prop)
    (hstep : ∀ c : Call, c.Legal → P c.pre → P c.post) :
    ∀ (calls : List Call) (m final : Machine), P m → Chain m calls final →
      (∀ c ∈ calls, c.Legal) → ∀ s ∈ statesOf m calls, P s := by
  intro calls
  induction calls with
  | nil => intro m final hm _ _ s hs; simp [statesOf] at hs; subst hs; exact hm
  | cons c cs ih =>
    intro m final hm hch hl s hs
    simp only [Chain] at hch
    simp only [statesOf, List.map_cons, List.mem_cons] at hs
    rcases hs with h | h
    · subst h; exact hm
    · have hc : c.Legal := hl c (by simp)
      have hp : P c.post := hstep c hc (by rw [hch.1]; exact hm)
      exact ih c.post final hp hch.2 (fun x hx => hl x (by simp [hx])) s
        (by simpa [statesOf] using h)

theorem chain_pre_mem (calls : List Call) : ∀ (m final : Machine), Chain m calls final →
    ∀ c ∈ calls, c.pre ∈ statesOf m calls := by
  induction calls with
  | nil => intro m final _ c hc; simp at hc
  | cons x xs ih =>
    intro m final hch c hc
    simp only [Chain] at hch
    rcases List.mem_cons.1 hc with h | h
    · subst h; simp [statesOf, hch.1]
    · have := ih x.post final hch.2 c h
      simp only [statesOf, List.mem_cons, List.map_cons] at this ⊢
      rcases this with h1 | h1
      · exact Or.inr (Or.inl h1)
      · exact Or.inr (Or.inr h1)

/-- A legal call keeps every peg strictly decreasing from bottom to top. -/
theorem legal_sorted (c : Call) (hc : c.Legal)
    (h : ∀ r, r < 3 → (c.pre.discs r).Pairwise (· < ·)) :
    ∀ r, r < 3 → (c.post.discs r).Pairwise (· < ·) := by
  obtain ⟨d, rest, h1, h2, h3, h4, h5, _⟩ := legal_effect c hc
  intro r hr
  by_cases hrs : r = c.src
  · subst hrs
    have := h c.src hr
    rw [h1] at this
    rw [h3]; exact (List.pairwise_cons.1 this).2
  · by_cases hrd : r = c.dst
    · subst hrd
      rw [h4]; exact List.pairwise_cons.2 ⟨h2, h c.dst hr⟩
    · rw [h5 r hrs hrd]; exact h r hr

/-- A legal call neither creates nor destroys a disc. -/
theorem legal_count (c : Call) (hc : c.Legal) (v : Nat) :
    c.post.allDiscs.count v = c.pre.allDiscs.count v := by
  obtain ⟨d, rest, h1, _, h3, h4, h5, _⟩ := legal_effect c hc
  obtain ⟨hs, hd, hne, _⟩ := hc
  obtain ⟨src, dst, pre, post⟩ := c
  simp only [ROWS] at hs hd hne h1 h3 h4 h5
  have e1 : (pre.discs src).count v = (post.discs src).count v + (if d == v then 1 else 0) := by
    rw [h1, h3, List.count_cons]
  have e2 : (post.discs dst).count v = (pre.discs dst).count v + (if d == v then 1 else 0) := by
    rw [h4, List.count_cons]
  have e3 : ∀ r, r ≠ src → r ≠ dst → (post.discs r).count v = (pre.discs r).count v :=
    fun r hr1 hr2 => by rw [h5 r hr1 hr2]
  simp only [Machine.allDiscs, List.count_append]
  generalize (if d == v then 1 else 0) = x at e1 e2
  interval_cases src <;> interval_cases dst
  · exact absurd rfl hne
  · have := e3 2 (by omega) (by omega); omega
  · have := e3 1 (by omega) (by omega); omega
  · have := e3 2 (by omega) (by omega); omega
  · exact absurd rfl hne
  · have := e3 0 (by omega) (by omega); omega
  · have := e3 1 (by omega) (by omega); omega
  · have := e3 0 (by omega) (by omega); omega
  · exact absurd rfl hne

/-! ## `main`: setting up the tower -/

theorem initLoop_spec (height : Int) : ∀ (k i : Nat) (m : Machine), i + k ≤ 100 →
    ∃ m1, initLoop height k i m = .ok m1 ∧ m1.g_MoveDiscCount = m.g_MoveDiscCount ∧
      (∀ r, r ≠ 0 → m1.Columns r = m.Columns r) ∧
      (m1.Columns 0).Top = (m.Columns 0).Top ∧
      ∀ j, (m1.Columns 0).Array j =
        if i ≤ j ∧ j < i + k then ((height - (j : Int)) % 256).toNat
        else (m.Columns 0).Array j := by
  intro k
  induction k with
  | zero => intro i m _; exact ⟨m, rfl, rfl, fun _ _ => rfl, rfl, fun j => by
      have : ¬ (i ≤ j ∧ j < i) := by omega
      simp [this]⟩
  | succ k ih =>
    intro i m hik
    have hi : i < 100 := by omega
    obtain ⟨m1, hrun, hcnt, hother, htop, hcells⟩ :=
      ih (i + 1)
        { m with Columns := fun r =>
            if r = 0 then
              { Array := fun j =>
                  if j = i then ((height - (i : Int)) % 256).toNat else (m.Columns 0).Array j,
                Top := (m.Columns 0).Top }
            else m.Columns r } (by omega)
    refine ⟨m1, ?_, hcnt, ?_, ?_, ?_⟩
    · simp only [initLoop, storeCell, ROWS, LEVELS_MAX, hi, Outcome.bind]
      simpa using hrun
    · intro r hr; rw [hother r hr]; simp [hr]
    · rw [htop]; simp
    · intro j
      rw [hcells j]
      by_cases hji : j = i
      · subst hji; simp
      · have e : (i + 1 ≤ j ∧ j < i + 1 + k) ↔ (i ≤ j ∧ j < i + (k + 1)) := by omega
        simp [hji, e]

theorem setup_eq (m : Machine) (h : Nat) (hh : h ≤ 100) :
    setup m (h : Int) = .ok (initialMachine h) := by
  obtain ⟨m1, hrun, _, hother, _, hcells⟩ := initLoop_spec (h : Int) h 0 (clearColumns m) (by omega)
  have e256 : ((h : Int) % 256).toNat = h := by omega
  simp only [setup, Int.toNat_ofNat, hrun, Outcome.bind, storeTop, ROWS, e256]
  simp only [Nat.lt_succ_self, Nat.zero_lt_succ, if_true, initialMachine]
  congr 2
  funext r
  by_cases hr : r = 0
  · subst hr
    simp only [if_true]
    congr 1
    funext j
    rw [hcells j]
    by_cases hj : j < h
    · have : ((h : Int) - (j : Int)) % 256 = ((h - j : Nat) : Int) := by omega
      simp [hj, this]
    · simp [hj, clearColumns]
  · simp only [hr, if_false]
    rw [hother r hr]
    simp [clearColumns]

theorem initialMachine_isTower (h : Nat) : (initialMachine h).IsTower h := by
  refine ⟨rfl, fun i hi => ?_, rfl, rfl⟩
  simp [initialMachine, hi]

/-! ## `solve` on the tower -/

theorem solve_tower (h : Nat) (m : Machine) (h1 : 1 ≤ h) (h100 : h ≤ 100) (hm : m.IsTower h) :
    ∃ final calls, solve m (h : Int) = .ok (final, calls) ∧
      final.discs 0 = [] ∧ final.discs 1 = [] ∧ final.discs 2 = List.range' 1 h ∧
      calls.length = 2 ^ h - 1 ∧
      final.g_MoveDiscCount = wrapInt (m.g_MoveDiscCount + ((2 : Int) ^ h - 1)) ∧
      (∀ c ∈ calls, c.Legal) ∧ Chain m calls final := by
  obtain ⟨k, rfl⟩ : ∃ k, h = k + 1 := ⟨h - 1, by omega⟩
  obtain ⟨d0, d1, d2⟩ := isTower_discs (k + 1) m hm
  have e256 : (((k + 1 : Nat) : Int) % 256).toNat = k + 1 := by omega
  obtain ⟨final, calls, hrun, hsrc, hdst, haux, hlen, hcnt, hlegal, hchain⟩ :=
    moveFuel_transfer_aux k 256 m 0 2 (List.range' 1 (k + 1)) [] (by omega) (by omega)
      (by omega) (by omega) (by omega) (by simpa using d0) (by simp)
      (List.pairwise_lt_range' 1 (k + 1))
      (by simp) (by rw [d2]; simp) (by rw [show 3 - 0 - 2 = 1 from rfl, d1]; simp)
      (by rw [d0]; simp; omega) (by rw [d2]; simp; omega)
      (by rw [show 3 - 0 - 2 = 1 from rfl, d1]; simp; omega)
  refine ⟨final, calls, ?_, hsrc, ?_, ?_, hlen, hcnt, hlegal, hchain⟩
  · simp only [solve, move, ROWS, e256]
    exact hrun
  · rw [show 3 - 0 - 2 = 1 from rfl] at haux; rw [haux, d1]
  · rw [hdst, d2]; simp

theorem tower_states_sorted (h : Nat) (m final : Machine) (calls : List Call)
    (hm : m.IsTower h) (hchain : Chain m calls final) (hlegal : ∀ c ∈ calls, c.Legal) :
    ∀ s ∈ statesOf m calls, ∀ r, r < 3 → (s.discs r).Pairwise (· < ·) := by
  apply chain_invariant (fun s => ∀ r, r < 3 → (s.discs r).Pairwise (· < ·))
    (fun c hc hp => legal_sorted c hc hp) calls m final _ hchain hlegal
  obtain ⟨d0, d1, d2⟩ := isTower_discs h m hm
  intro r hr
  interval_cases r
  · rw [d0]; exact List.pairwise_lt_range' 1 h
  · rw [d1]; exact List.Pairwise.nil
  · rw [d2]; exact List.Pairwise.nil

theorem tower_states_count (h : Nat) (m final : Machine) (calls : List Call)
    (hm : m.IsTower h) (hchain : Chain m calls final) (hlegal : ∀ c ∈ calls, c.Legal) :
    ∀ s ∈ statesOf m calls, ∀ v, s.allDiscs.count v = (List.range' 1 h).count v := by
  apply chain_invariant (fun s => ∀ v, s.allDiscs.count v = (List.range' 1 h).count v)
    (fun c hc hp v => by rw [legal_count c hc v]; exact hp v) calls m final _ hchain hlegal
  obtain ⟨d0, d1, d2⟩ := isTower_discs h m hm
  intro v
  simp [Machine.allDiscs, d0, d1, d2]

theorem allDiscs_length (s : Machine) :
    s.allDiscs.length = (s.Columns 0).Top + (s.Columns 1).Top + (s.Columns 2).Top := by
  simp [Machine.allDiscs, discs_length, Nat.add_assoc]

/-! ## The claims -/

/-- C1: for every height `h` with `2 ≤ h ≤ 100`, `solve` run on the state with
the tower `h, ..., 1` on peg 0 and pegs 1 and 2 empty ends normally and
executes `moveDisc` exactly `2^h - 1` times (length of the sequence of calls,
a natural number). -/
theorem solve_move_count (h : Nat) (m : Machine) (h2 : 2 ≤ h) (h100 : h ≤ 100)
    (hm : m.IsTower h) :
    ∃ final calls, solve m (h : Int) = .ok (final, calls) ∧ calls.length = 2 ^ h - 1 := by
  obtain ⟨final, calls, hrun, _, _, _, hlen, _⟩ := solve_tower h m (by omega) h100 hm
  exact ⟨final, calls, hrun, hlen⟩

theorem solve_move_count_witness :
    (initialMachine 3).IsTower 3 ∧
    ∃ final calls, solve (initialMachine 3) ((3 : Nat) : Int) = .ok (final, calls) ∧
      calls.length = 2 ^ 3 - 1 :=
  ⟨⟨rfl, by decide, rfl, rfl⟩,
    solve_move_count 3 (initialMachine 3) (by decide) (by decide) ⟨rfl, by decide, rfl, rfl⟩⟩

/-- C2: for every height `h` with `2 ≤ h ≤ 100`, after `solve` has run on the
initial state (tower on peg 0, `Top = h`; pegs 1 and 2 empty), peg 2 holds
`h, h-1, ..., 1` from bottom to top with `Top = h`, and pegs 0 and 1 have
`Top = 0`. -/
theorem solve_final_layout (h : Nat) (m : Machine) (h2 : 2 ≤ h) (h100 : h ≤ 100)
    (hm : m.IsTower h) :
    ∃ final calls, solve m (h : Int) = .ok (final, calls) ∧
      (final.Columns 2).Top = h ∧ (∀ i, i < h → (final.Columns 2).Array i = h - i) ∧
      (final.Columns 0).Top = 0 ∧ (final.Columns 1).Top = 0 := by
  obtain ⟨final, calls, hrun, f0, f1, f2, _⟩ := solve_tower h m (by omega) h100 hm
  obtain ⟨t2, c2⟩ := (discs_eq_tower final 2 h).1 f2
  exact ⟨final, calls, hrun, t2, c2, (discs_eq_nil final 0).1 f0, (discs_eq_nil final 1).1 f1⟩

theorem solve_final_layout_witness :
    (initialMachine 2).IsTower 2 ∧
    ∃ final calls, solve (initialMachine 2) ((2 : Nat) : Int) = .ok (final, calls) ∧
      (final.Columns 2).Top = 2 ∧ (∀ i, i < 2 → (final.Columns 2).Array i = 2 - i) ∧
      (final.Columns 0).Top = 0 ∧ (final.Columns 1).Top = 0 :=
  ⟨⟨rfl, by decide, rfl, rfl⟩,
    solve_final_layout 2 (initialMachine 2) (by decide) (by decide) ⟨rfl, by decide, rfl, rfl⟩⟩

/-- C3: for every height `h` with `2 ≤ h ≤ 100`, in the initial state and in
the state after every `moveDisc` call made during `solve` (the states shown by
`printState`), each of the three pegs is strictly decreasing from bottom to
top over its cells `0 .. Top-1`; and every call puts its disc on a peg whose
discs are all larger. -/
theorem solve_states_descending (h : Nat) (m : Machine) (h2 : 2 ≤ h) (h100 : h ≤ 100)
    (hm : m.IsTower h) :
    ∃ final calls, solve m (h : Int) = .ok (final, calls) ∧
      (∀ s ∈ statesOf m calls, ∀ r, r < ROWS → (s.Columns r).Descending) ∧
      (∀ c ∈ calls, ∀ i, i < (c.pre.Columns c.dst).Top →
        (c.pre.Columns c.src).Array ((c.pre.Columns c.src).Top - 1) <
          (c.pre.Columns c.dst).Array i) := by
  obtain ⟨final, calls, hrun, _, _, _, _, _, hlegal, hchain⟩ :=
    solve_tower h m (by omega) h100 hm
  refine ⟨final, calls, hrun, ?_, ?_⟩
  · intro s hs r hr
    rw [descending_iff]
    exact tower_states_sorted h m final calls hm hchain hlegal s hs r hr
  · intro c hc i hi
    obtain ⟨_, _, _, _, _, _, hlt, _⟩ := hlegal c hc
    exact hlt _ ((mem_cellsBelow _ _ _).2 ⟨i, hi, rfl⟩)

theorem solve_states_descending_witness :
    (initialMachine 3).IsTower 3 ∧
    ∃ final calls, solve (initialMachine 3) ((3 : Nat) : Int) = .ok (final, calls) ∧
      (∀ s ∈ statesOf (initialMachine 3) calls, ∀ r, r < ROWS → (s.Columns r).Descending) ∧
      (∀ c ∈ calls, ∀ i, i < (c.pre.Columns c.dst).Top →
        (c.pre.Columns c.src).Array ((c.pre.Columns c.src).Top - 1) <
          (c.pre.Columns c.dst).Array i) :=
  ⟨⟨rfl, by decide, rfl, rfl⟩,
    solve_states_descending 3 (initialMachine 3) (by decide) (by decide)
      ⟨rfl, by decide, rfl, rfl⟩⟩

/-- C4: for every height `h` with `2 ≤ h ≤ 100`, in every state reached during
`solve` from the initial state, the three `Top` values add up to `h`, the discs
on the three pegs (cells below `Top`) are together exactly `1, 2, ..., h`,
each once; in particular the disc `h` occurs exactly once and every `Top` is
at most `h ≤ 100`. -/
theorem solve_states_conserve_discs (h : Nat) (m : Machine) (h2 : 2 ≤ h) (h100 : h ≤ 100)
    (hm : m.IsTower h) :
    ∃ final calls, solve m (h : Int) = .ok (final, calls) ∧
      ∀ s ∈ statesOf m calls,
        (s.Columns 0).Top + (s.Columns 1).Top + (s.Columns 2).Top = h ∧
        s.allDiscs.Perm (List.range' 1 h) ∧
        s.allDiscs.count h = 1 ∧
        (∀ r, r < ROWS → (s.Columns r).Top ≤ h) ∧ h ≤ LEVELS_MAX := by
  obtain ⟨final, calls, hrun, _, _, _, _, _, hlegal, hchain⟩ :=
    solve_tower h m (by omega) h100 hm
  refine ⟨final, calls, hrun, ?_⟩
  intro s hs
  have hcount := tower_states_count h m final calls hm hchain hlegal s hs
  have hperm : s.allDiscs.Perm (List.range' 1 h) := List.perm_iff_count.2 hcount
  have hsum : (s.Columns 0).Top + (s.Columns 1).Top + (s.Columns 2).Top = h := by
    rw [← allDiscs_length, hperm.length_eq, List.length_range']
  refine ⟨hsum, hperm, ?_, ?_, h100⟩
  · rw [hcount h]
    exact List.count_eq_one_of_mem (List.nodup_range' 1 h) (List.mem_range'_1.2 ⟨by omega, by omega⟩)
  · intro r hr
    simp only [ROWS] at hr
    interval_cases r <;> omega

theorem solve_states_conserve_discs_witness :
    (initialMachine 2).IsTower 2 ∧
    ∃ final calls, solve (initialMachine 2) ((2 : Nat) : Int) = .ok (final, calls) ∧
      ∀ s ∈ statesOf (initialMachine 2) calls,
        (s.Columns 0).Top + (s.Columns 1).Top + (s.Columns 2).Top = 2 ∧
        s.allDiscs.Perm (List.range' 1 2) ∧
        s.allDiscs.count 2 = 1 ∧
        (∀ r, r < ROWS → (s.Columns r).Top ≤ 2) ∧ 2 ≤ LEVELS_MAX :=
  ⟨⟨rfl, by decide, rfl, rfl⟩,
    solve_states_conserve_discs 2 (initialMachine 2) (by decide) (by decide)
      ⟨rfl, by decide, rfl, rfl⟩⟩

/-- C5: for all `a, b` in `{0, 1, 2}` with `a ≠ b`, `findRow(a, b)` returns
`3 - a - b`, which is the only index in `{0, 1, 2}` different from both `a`
and `b`. -/
theorem findRow_returns_third (a b : Nat) (ha : a < ROWS) (hb : b < ROWS) (hab : a ≠ b) :
    findRow a b = .ok (3 - a - b) ∧ 3 - a - b < ROWS ∧ 3 - a - b ≠ a ∧ 3 - a - b ≠ b ∧
      ∀ r, r < ROWS → r ≠ a → r ≠ b → r = 3 - a - b := by
  simp only [ROWS] at *
  refine ⟨findRow_third a b ha hb hab, by omega, by omega, by omega, ?_⟩
  intro r hr h1 h2
  omega

theorem findRow_returns_third_witness :
    findRow 0 2 = .ok (3 - 0 - 2) ∧ 3 - 0 - 2 < ROWS ∧ 3 - 0 - 2 ≠ 0 ∧ 3 - 0 - 2 ≠ 2 ∧
      ∀ r, r < ROWS → r ≠ 0 → r ≠ 2 → r = 3 - 0 - 2 :=
  findRow_returns_third 0 2 (by decide) (by decide) (by decide)

theorem findRow_ok (a b : Nat) : ∃ r, findRow a b = .ok r := by
  have h3 : (a + 1) % 3 < 3 := Nat.mod_lt _ (by decide)
  simp only [findRow, findRowLoop, u8, ROWS]
  generalize (a + 1) % 3 = r1 at h3 ⊢
  interval_cases r1 <;> simp only [Nat.reduceAdd, Nat.reduceMod] <;> split_ifs <;>
    first | exact ⟨_, rfl⟩ | (exfalso; omega)

theorem bind_ne_outOfFuel {α β : Type} (x : Outcome α) (f : α → Outcome β)
    (hx : x ≠ .outOfFuel) (hf : ∀ a, f a ≠ .outOfFuel) : x.bind f ≠ .outOfFuel := by
  cases x with
  | ok a => exact hf a
  | undefinedBehaviour => simp [Outcome.bind]
  | outOfFuel => exact absurd rfl hx

theorem loadTop_ne_outOfFuel (m : Machine) (r : Nat) : loadTop m r ≠ .outOfFuel := by
  unfold loadTop; split <;> simp

theorem storeTop_ne_outOfFuel (m : Machine) (r v : Nat) : storeTop m r v ≠ .outOfFuel := by
  unfold storeTop; split <;> simp

theorem loadCell_ne_outOfFuel (m : Machine) (r i : Nat) : loadCell m r i ≠ .outOfFuel := by
  unfold loadCell; split <;> simp

theorem storeCell_ne_outOfFuel (m : Machine) (r i v : Nat) :
    storeCell m r i v ≠ .outOfFuel := by
  unfold storeCell; split <;> simp

theorem moveDisc_ne_outOfFuel (m : Machine) (src dst : Nat) :
    moveDisc m src dst ≠ .outOfFuel := by
  unfold moveDisc
  refine bind_ne_outOfFuel _ _ (loadTop_ne_outOfFuel _ _) fun srcTop => ?_
  refine bind_ne_outOfFuel _ _ (loadTop_ne_outOfFuel _ _) fun dstTop => ?_
  refine bind_ne_outOfFuel _ _ ?_ fun _ => by simp
  split
  · refine bind_ne_outOfFuel _ _ (loadCell_ne_outOfFuel _ _ _) fun _ => ?_
    refine bind_ne_outOfFuel _ _ (storeCell_ne_outOfFuel _ _ _ _) fun _ => ?_
    refine bind_ne_outOfFuel _ _ (loadTop_ne_outOfFuel _ _) fun _ => ?_
    refine bind_ne_outOfFuel _ _ (storeTop_ne_outOfFuel _ _ _) fun _ => ?_
    refine bind_ne_outOfFuel _ _ (storeCell_ne_outOfFuel _ _ _ _) fun _ => ?_
    refine bind_ne_outOfFuel _ _ (loadTop_ne_outOfFuel _ _) fun _ => ?_
    exact storeTop_ne_outOfFuel _ _ _
  · simp

/-- Number of nested `move` calls a call with the given `elements` needs:
`elements` itself, and 256 for `elements = 0` (which recurses with 255). -/
theorem moveFuel_enough : ∀ (fuel : Nat) (m : Machine) (src dst n : Nat), n < 256 →
    (if n = 0 then 256 else n) ≤ fuel → moveFuel fuel m src dst n ≠ .outOfFuel := by
  intro fuel
  induction fuel with
  | zero => intro m src dst n _ h; split at h <;> omega
  | succ f ih =>
    intro m src dst n hn h
    by_cases h1 : n = 1
    · subst h1
      simp only [moveFuel, if_true]
      exact bind_ne_outOfFuel _ _ (moveDisc_ne_outOfFuel _ _ _) fun _ => by simp
    · obtain ⟨r, hr⟩ := findRow_ok src dst
      have hlt : elementsMinusOne n < 256 := by unfold elementsMinusOne u8; omega
      have hdep : (if elementsMinusOne n = 0 then 256 else elementsMinusOne n) ≤ f := by
        unfold elementsMinusOne u8
        split at h <;> split <;> omega
      simp only [moveFuel, h1, if_false, hr, Outcome.bind]
      refine bind_ne_outOfFuel _ _ (ih _ _ _ _ hlt hdep) fun _ => ?_
      refine bind_ne_outOfFuel _ _ (moveDisc_ne_outOfFuel _ _ _) fun _ => ?_
      exact bind_ne_outOfFuel _ _ (ih _ _ _ _ hlt hdep) fun _ => by simp

theorem moveFuel_short : ∀ (fuel : Nat) (m : Machine) (src dst n : Nat), n < 256 →
    fuel < (if n = 0 then 256 else n) → moveFuel fuel m src dst n = .outOfFuel := by
  intro fuel
  induction fuel with
  | zero => intro m src dst n _ _; rfl
  | succ f ih =>
    intro m src dst n hn h
    have h1 : n ≠ 1 := by split at h <;> omega
    obtain ⟨r, hr⟩ := findRow_ok src dst
    have hlt : elementsMinusOne n < 256 := by unfold elementsMinusOne u8; omega
    have hdep : f < (if elementsMinusOne n = 0 then 256 else elementsMinusOne n) := by
      unfold elementsMinusOne u8
      split at h <;> split <;> omega
    simp only [moveFuel, h1, if_false, hr, Outcome.bind, ih _ _ _ _ hlt hdep]

theorem main_valid (m : Machine) (h : Nat) (h2 : 2 ≤ h) (h100 : h ≤ 100) :
    ∃ calls final, main m (some (h : Int)) =
        .ok (.solved (initialMachine h) calls final (wrapInt ((2 : Int) ^ h - 1))) ∧
      solve (initialMachine h) (h : Int) = .ok (final, calls) ∧
      final.g_MoveDiscCount = wrapInt ((2 : Int) ^ h - 1) := by
  obtain ⟨final, calls, hrun, _, _, _, _, hcnt, _⟩ :=
    solve_tower h (initialMachine h) (by omega) h100 (initialMachine_isTower h)
  have hc : final.g_MoveDiscCount = wrapInt ((2 : Int) ^ h - 1) := by
    rw [hcnt]; simp [initialMachine]
  have e : toUnsigned (h : Int) = h := by unfold toUnsigned; omega
  have n1 : ¬ h < 2 := by omega
  have n2 : ¬ h > 100 := by omega
  refine ⟨calls, final, ?_, hrun, hc⟩
  simp only [main, e, MIN_HEIGHT, MAX_HEIGHT, LEVELS_MAX, n1, n2, if_false, setup_eq m h h100,
    Outcome.bind, hrun, hc]

theorem main_invalid (m : Machine) (height : Int) (hlo : INT_MIN ≤ height)
    (hhi : height ≤ INT_MAX) :
    (0 ≤ height ∧ height < 2 → main m (some height) = .ok (.rejectedLow m)) ∧
    (height < 0 ∨ 100 < height → main m (some height) = .ok (.rejectedHigh m)) := by
  unfold INT_MIN at hlo
  unfold INT_MAX at hhi
  constructor
  · rintro ⟨h0, h2⟩
    have : toUnsigned height < 2 := by unfold toUnsigned; omega
    simp [main, MIN_HEIGHT, this]
  · intro h
    have n1 : ¬ toUnsigned height < 2 := by unfold toUnsigned; omega
    have n2 : toUnsigned height > 100 := by unfold toUnsigned; omega
    simp [main, MIN_HEIGHT, MAX_HEIGHT, LEVELS_MAX, n1, n2]

/-- C6, as amended: for every state whose source peg has `0 < Top[src] ≤ 100`
and whose counter is below `INT_MAX`, and all `src ≠ dst` in `{0, 1, 2}` with
`Top[dst] < 100`: `moveDisc` ends normally, lowers `Top[src]` by 1 and clears
the vacated cell, raises `Top[dst]` by 1 and stores the removed disc in the new
top cell, leaves every other cell of both pegs and the whole third peg as they
were, and increases the counter by exactly 1. -/
theorem moveDisc_moves_top_disc (m : Machine) (src dst : Nat) (hs : src < ROWS)
    (hd : dst < ROWS) (hne : src ≠ dst) (hpos : 0 < (m.Columns src).Top)
    (hle : (m.Columns src).Top ≤ LEVELS_MAX) (hcap : (m.Columns dst).Top < LEVELS_MAX)
    (hc1 : INT_MIN ≤ m.g_MoveDiscCount) (hc2 : m.g_MoveDiscCount < INT_MAX) :
    ∃ m1, moveDisc m src dst = .ok m1 ∧
      (m1.Columns src).Top = (m.Columns src).Top - 1 ∧
      (m1.Columns src).Array ((m.Columns src).Top - 1) = 0 ∧
      (m1.Columns dst).Top = (m.Columns dst).Top + 1 ∧
      (m1.Columns dst).Array (m.Columns dst).Top =
        (m.Columns src).Array ((m.Columns src).Top - 1) ∧
      (∀ i, i ≠ (m.Columns src).Top - 1 → (m1.Columns src).Array i = (m.Columns src).Array i) ∧
      (∀ i, i ≠ (m.Columns dst).Top → (m1.Columns dst).Array i = (m.Columns dst).Array i) ∧
      (∀ r, r ≠ src → r ≠ dst → m1.Columns r = m.Columns r) ∧
      m1.g_MoveDiscCount = m.g_MoveDiscCount + 1 := by
  refine ⟨discMoved m src dst, moveDisc_eq m src dst hs hd hne hpos hle hcap, ?_, ?_, ?_, ?_,
    ?_, ?_, ?_, ?_⟩
  · simp [discMoved, hne]
  · simp [discMoved, hne]
  · simp [discMoved]
  · simp [discMoved]
  · intro i hi; simp [discMoved, hne, hi]
  · intro i hi; simp [discMoved, hi]
  · intro r h1 h2; simp [discMoved, h1, h2]
  · rw [discMoved_count]
    exact wrapInt_of_range _ (by unfold INT_MIN at *; unfold INT_MAX at hc2; omega)
      (by unfold INT_MAX at *; omega)

theorem moveDisc_moves_top_disc_witness :
    ∃ m1, moveDisc (initialMachine 2) 0 1 = .ok m1 ∧
      (m1.Columns 0).Top = ((initialMachine 2).Columns 0).Top - 1 ∧
      (m1.Columns 0).Array (((initialMachine 2).Columns 0).Top - 1) = 0 ∧
      (m1.Columns 1).Top = ((initialMachine 2).Columns 1).Top + 1 ∧
      (m1.Columns 1).Array ((initialMachine 2).Columns 1).Top =
        ((initialMachine 2).Columns 0).Array (((initialMachine 2).Columns 0).Top - 1) ∧
      (∀ i, i ≠ ((initialMachine 2).Columns 0).Top - 1 →
        (m1.Columns 0).Array i = ((initialMachine 2).Columns 0).Array i) ∧
      (∀ i, i ≠ ((initialMachine 2).Columns 1).Top →
        (m1.Columns 1).Array i = ((initialMachine 2).Columns 1).Array i) ∧
      (∀ r, r ≠ 0 → r ≠ 1 → m1.Columns r = (initialMachine 2).Columns r) ∧
      m1.g_MoveDiscCount = (initialMachine 2).g_MoveDiscCount + 1 :=
  moveDisc_moves_top_disc (initialMachine 2) 0 1 (by decide) (by decide) (by decide)
    (by decide) (by decide) (by decide) (by decide) (by decide)

/-- C6 as stated fails at two inputs.  With `Top[0] = 101` (a value the
`uint8_t` field can hold) and `Top[1] = 0`, `moveDisc(0, 1)` reads
`Array[100]`, outside the 100-cell array, so no disc is moved in a defined way.
With the counter at `INT_MAX`, the increment does not yield the counter plus
one: the wrapped result is `INT_MIN`. -/
theorem moveDisc_counterexample :
    moveDisc { Columns := fun k => { Array := fun _ => 1, Top := if k = 0 then 101 else 0 },
               g_MoveDiscCount := 0 } 0 1 = .undefinedBehaviour ∧
    ∃ m1, moveDisc { initialMachine 2 with g_MoveDiscCount := INT_MAX } 0 1 = .ok m1 ∧
      m1.g_MoveDiscCount = INT_MIN ∧
      m1.g_MoveDiscCount ≠ INT_MAX + 1 :=
  ⟨rfl, _, rfl, by decide, by decide⟩

/-- C7 at height 32 (accepted by `main`): `solve` makes `2^32 - 1` calls of
`moveDisc`, but the `int` counter that `main` prints holds `-1` at the end. -/
theorem main_reports_wrapped_count :
    ∃ calls final, main startMachine (some 32) =
        .ok (.solved (initialMachine 32) calls final (-1)) ∧
      calls.length = 2 ^ 32 - 1 ∧ ((-1 : Int) ≠ 2 ^ 32 - 1) := by
  obtain ⟨calls, final, hmain, hrun, _⟩ := main_valid startMachine 32 (by decide) (by decide)
  obtain ⟨final2, calls2, hrun2, _, _, _, hlen, _⟩ :=
    solve_tower 32 (initialMachine 32) (by decide) (by decide) (initialMachine_isTower 32)
  have e : (final, calls) = (final2, calls2) := Outcome.ok.inj (hrun.symm.trans hrun2)
  have e2 : calls = calls2 := congrArg Prod.snd e
  have hw : wrapInt ((2 : Int) ^ 32 - 1) = -1 := by decide
  rw [hw] at hmain
  exact ⟨calls, final, hmain, by rw [e2]; exact hlen, by decide⟩

/-- C8: for every state, all `src`, `dst` and every count `n` with
`1 ≤ n ≤ 255`, `move(state, src, dst, n)` terminates: it never exhausts a
nesting budget of at least `n` (in particular not the 256 of `move`), while
every budget below `n` is exhausted, so the deepest nesting of `move` calls is
exactly `n`; and for `n ≠ 1` both recursive calls receive the count `n - 1`,
which is smaller than `n`. -/
theorem move_terminates_with_depth (m : Machine) (src dst n : Nat) (h1 : 1 ≤ n)
    (h255 : n ≤ 255) :
    move m src dst n ≠ .outOfFuel ∧
    (∀ fuel, n ≤ fuel → moveFuel fuel m src dst n ≠ .outOfFuel) ∧
    (∀ fuel, fuel < n → moveFuel fuel m src dst n = .outOfFuel) ∧
    (n ≠ 1 → elementsMinusOne n = n - 1 ∧ n - 1 < n ∧
      ∀ fuel, moveFuel (fuel + 1) m src dst n =
        (findRow src dst).bind fun dstNew =>
        (moveFuel fuel m src dstNew (n - 1)).bind fun r1 =>
        (moveDisc r1.1 src dst).bind fun m2 =>
        (moveFuel fuel m2 dstNew dst (n - 1)).bind fun r2 =>
        .ok (r2.1, r1.2 ++ [⟨src, dst, r1.1, m2⟩] ++ r2.2)) := by
  have hn0 : ¬ n = 0 := by omega
  refine ⟨?_, ?_, ?_, ?_⟩
  · exact moveFuel_enough 256 m src dst n (by omega) (by simp only [hn0, if_false]; omega)
  · intro fuel hf
    exact moveFuel_enough fuel m src dst n (by omega) (by simp only [hn0, if_false]; exact hf)
  · intro fuel hf
    exact moveFuel_short fuel m src dst n (by omega) (by simp only [hn0, if_false]; exact hf)
  · intro hne
    have e : elementsMinusOne n = n - 1 := by unfold elementsMinusOne u8; omega
    refine ⟨e, by omega, fun fuel => ?_⟩
    simp only [moveFuel, hne, if_false, e]

theorem move_terminates_with_depth_witness :
    move startMachine 0 2 3 ≠ .outOfFuel ∧
    (∀ fuel, 3 ≤ fuel → moveFuel fuel startMachine 0 2 3 ≠ .outOfFuel) ∧
    (∀ fuel, fuel < 3 → moveFuel fuel startMachine 0 2 3 = .outOfFuel) ∧
    (3 ≠ 1 → elementsMinusOne 3 = 3 - 1 ∧ 3 - 1 < 3 ∧
      ∀ fuel, moveFuel (fuel + 1) startMachine 0 2 3 =
        (findRow 0 2).bind fun dstNew =>
        (moveFuel fuel startMachine 0 dstNew (3 - 1)).bind fun r1 =>
        (moveDisc r1.1 0 2).bind fun m2 =>
        (moveFuel fuel m2 dstNew 2 (3 - 1)).bind fun r2 =>
        .ok (r2.1, r1.2 ++ [⟨0, 2, r1.1, m2⟩] ++ r2.2)) :=
  move_terminates_with_depth startMachine 0 2 3 (by decide) (by decide)

/-- C9: for every height `h` with `2 ≤ h ≤ 100`, `solve` on the initial state
ends normally (no access outside an array), its calls follow one another from
the initial state, and every `moveDisc` call is made with two different peg
indices below `ROWS`, a source with `0 < Top[src] ≤ 100` (the guard
`srcTop > 0` holds) and a destination with `Top[dst] < 100`, and itself ends
normally. -/
theorem solve_calls_safe (h : Nat) (m : Machine) (h2 : 2 ≤ h) (h100 : h ≤ 100)
    (hm : m.IsTower h) :
    ∃ final calls, solve m (h : Int) = .ok (final, calls) ∧ Chain m calls final ∧
      ∀ c ∈ calls, c.src < ROWS ∧ c.dst < ROWS ∧ c.src ≠ c.dst ∧
        0 < (c.pre.Columns c.src).Top ∧ (c.pre.Columns c.src).Top ≤ LEVELS_MAX ∧
        (c.pre.Columns c.dst).Top < LEVELS_MAX ∧
        moveDisc c.pre c.src c.dst = .ok c.post := by
  obtain ⟨final, calls, hrun, _, _, _, _, _, hlegal, hchain⟩ :=
    solve_tower h m (by omega) h100 hm
  refine ⟨final, calls, hrun, hchain, fun c hc => ?_⟩
  obtain ⟨a1, a2, a3, a4, a5, a6, _, a8⟩ := hlegal c hc
  exact ⟨a1, a2, a3, a4, a5, a6, a8⟩

theorem solve_calls_safe_witness :
    (initialMachine 3).IsTower 3 ∧
    ∃ final calls, solve (initialMachine 3) ((3 : Nat) : Int) = .ok (final, calls) ∧
      Chain (initialMachine 3) calls final ∧
      ∀ c ∈ calls, c.src < ROWS ∧ c.dst < ROWS ∧ c.src ≠ c.dst ∧
        0 < (c.pre.Columns c.src).Top ∧ (c.pre.Columns c.src).Top ≤ LEVELS_MAX ∧
        (c.pre.Columns c.dst).Top < LEVELS_MAX ∧
        moveDisc c.pre c.src c.dst = .ok c.post :=
  ⟨⟨rfl, by decide, rfl, rfl⟩,
    solve_calls_safe 3 (initialMachine 3) (by decide) (by decide) ⟨rfl, by decide, rfl, rfl⟩⟩

/-- C10: for every `int` value `height` returned by `atoi`, `main` sets up the
pegs and calls `solve` if and only if `2 ≤ height ≤ 100`, and then starts
`solve` from the tower of that height; every other height takes an error
branch (the first for `0` and `1`, the second for negative values and values
above 100), in which nothing is solved and the pegs and the counter are left
as they were. -/
theorem main_solves_iff_valid_height (m : Machine) (height : Int) (hlo : INT_MIN ≤ height)
    (hhi : height ≤ INT_MAX) :
    ((2 ≤ height ∧ height ≤ 100) ↔
      ∃ start calls final reported,
        main m (some height) = .ok (.solved start calls final reported)) ∧
    (2 ≤ height ∧ height ≤ 100 →
      ∃ calls final reported,
        main m (some height) = .ok (.solved (initialMachine height.toNat) calls final reported) ∧
        solve (initialMachine height.toNat) height = .ok (final, calls)) ∧
    (0 ≤ height ∧ height < 2 → main m (some height) = .ok (.rejectedLow m)) ∧
    (height < 0 ∨ 100 < height → main m (some height) = .ok (.rejectedHigh m)) := by
  obtain ⟨hlow, hhigh⟩ := main_invalid m height hlo hhi
  have hvalid : 2 ≤ height ∧ height ≤ 100 →
      ∃ calls final reported,
        main m (some height) = .ok (.solved (initialMachine height.toNat) calls final reported) ∧
        solve (initialMachine height.toNat) height = .ok (final, calls) := by
    rintro ⟨a, b⟩
    obtain ⟨calls, final, hmain, hrun, _⟩ :=
      main_valid m height.toNat (by omega) (by omega)
    have e : ((height.toNat : Nat) : Int) = height := by omega
    rw [e] at hmain hrun
    exact ⟨calls, final, _, hmain, hrun⟩
  refine ⟨⟨?_, ?_⟩, hvalid, hlow, hhigh⟩
  · intro hv
    obtain ⟨calls, final, reported, hmain, _⟩ := hvalid hv
    exact ⟨_, calls, final, reported, hmain⟩
  · rintro ⟨start, calls, final, reported, hmain⟩
    by_contra hv
    by_cases h0 : 0 ≤ height ∧ height < 2
    · rw [hlow h0] at hmain
      cases hmain
    · rw [hhigh (by omega)] at hmain
      cases hmain

theorem main_solves_iff_valid_height_witness :
    ((2 ≤ (101 : Int) ∧ (101 : Int) ≤ 100) ↔
      ∃ start calls final reported,
        main startMachine (some 101) = .ok (.solved start calls final reported)) ∧
    (2 ≤ (101 : Int) ∧ (101 : Int) ≤ 100 →
      ∃ calls final reported,
        main startMachine (some 101) =
          .ok (.solved (initialMachine (101 : Int).toNat) calls final reported) ∧
        solve (initialMachine (101 : Int).toNat) 101 = .ok (final, calls)) ∧
    (0 ≤ (101 : Int) ∧ (101 : Int) < 2 →
      main startMachine (some 101) = .ok (.rejectedLow startMachine)) ∧
    ((101 : Int) < 0 ∨ 100 < (101 : Int) →
      main startMachine (some 101) = .ok (.rejectedHigh startMachine)) :=
  main_solves_iff_valid_height startMachine 101 (by decide) (by decide)

/-! ## `moveDisc` outside the calls made by `solve` -/

theorem moveDisc_empty (m : Machine) (src dst : Nat) (hs : src < 3) (hd : dst < 3)
    (h0 : (m.Columns src).Top = 0) : moveDisc m src dst = .ok (incrCount m) := by
  simp [moveDisc, loadTop, ROWS, hs, hd, h0, Outcome.bind]

theorem moveDisc_self_eq (m : Machine) (s : Nat) (hs : s < 3) (hpos : 0 < (m.Columns s).Top)
    (hcap : (m.Columns s).Top < 100) : moveDisc m s s = .ok (selfMoved m s) := by
  have h1 : (m.Columns s).Top - 1 < 100 := by omega
  have h2 : ((m.Columns s).Top + 255) % 256 = (m.Columns s).Top - 1 := by omega
  have h3 : ((m.Columns s).Top - 1 + 1) % 256 = (m.Columns s).Top := by omega
  simp only [moveDisc, loadTop, loadCell, storeCell, storeTop, Outcome.bind, ROWS, LEVELS_MAX,
    hs, hpos, h1, hcap, if_true, and_self, gt_iff_lt, u8, incrCount, h2, h3, selfMoved]
  congr 2
  funext k
  by_cases hk : k = s
  · subst hk
    simp only [if_true]
  · simp [hk]

/-- C12, as amended: for every state and every peg `s` in `{0, 1, 2}` with
`Top[s] < 100` and the counter below `INT_MAX`, `moveDisc(state, s, s)` ends
normally, leaves the other two pegs and `Top[s]` as they were and increases the
counter by exactly 1.  On an empty peg the cells stay as they were.  On a
non-empty peg the call is not a no-op: the top disc moves one cell up (cell
`Top-1` becomes 0, cell `Top` receives the disc), all other cells stay. -/
theorem moveDisc_self_move (m : Machine) (s : Nat) (hs : s < ROWS)
    (hcap : (m.Columns s).Top < LEVELS_MAX)
    (hc1 : INT_MIN ≤ m.g_MoveDiscCount) (hc2 : m.g_MoveDiscCount < INT_MAX) :
    ∃ m1, moveDisc m s s = .ok m1 ∧
      m1.g_MoveDiscCount = m.g_MoveDiscCount + 1 ∧
      (∀ r, r ≠ s → m1.Columns r = m.Columns r) ∧
      (m1.Columns s).Top = (m.Columns s).Top ∧
      ((m.Columns s).Top = 0 → m1.Columns s = m.Columns s) ∧
      (0 < (m.Columns s).Top →
        (m1.Columns s).Array ((m.Columns s).Top - 1) = 0 ∧
        (m1.Columns s).Array (m.Columns s).Top =
          (m.Columns s).Array ((m.Columns s).Top - 1) ∧
        ∀ i, i ≠ (m.Columns s).Top - 1 → i ≠ (m.Columns s).Top →
          (m1.Columns s).Array i = (m.Columns s).Array i) := by
  simp only [ROWS, LEVELS_MAX] at hs hcap
  have hcnt : wrapInt (m.g_MoveDiscCount + 1) = m.g_MoveDiscCount + 1 :=
    wrapInt_of_range _ (by unfold INT_MIN at *; unfold INT_MAX at hc2; omega)
      (by unfold INT_MAX at *; omega)
  by_cases h0 : (m.Columns s).Top = 0
  · refine ⟨incrCount m, moveDisc_empty m s s hs hs h0, hcnt, fun _ _ => rfl, rfl,
      fun _ => rfl, fun hpos => ?_⟩
    omega
  · have hpos : 0 < (m.Columns s).Top := Nat.pos_of_ne_zero h0
    refine ⟨selfMoved m s, moveDisc_self_eq m s hs hpos hcap, hcnt, ?_, ?_, ?_, ?_⟩
    · intro r hr; simp [selfMoved, hr]
    · simp [selfMoved]
    · intro h; exact absurd h h0
    · intro _
      have hne : (m.Columns s).Top - 1 ≠ (m.Columns s).Top := by omega
      refine ⟨by simp [selfMoved, hne], by simp [selfMoved], fun i h1 h2 => ?_⟩
      simp [selfMoved, h1, h2]

theorem moveDisc_self_move_witness :
    ∃ m1, moveDisc (initialMachine 3) 0 0 = .ok m1 ∧
      m1.g_MoveDiscCount = (initialMachine 3).g_MoveDiscCount + 1 ∧
      (∀ r, r ≠ 0 → m1.Columns r = (initialMachine 3).Columns r) ∧
      (m1.Columns 0).Top = ((initialMachine 3).Columns 0).Top ∧
      (((initialMachine 3).Columns 0).Top = 0 → m1.Columns 0 = (initialMachine 3).Columns 0) ∧
      (0 < ((initialMachine 3).Columns 0).Top →
        (m1.Columns 0).Array (((initialMachine 3).Columns 0).Top - 1) = 0 ∧
        (m1.Columns 0).Array ((initialMachine 3).Columns 0).Top =
          ((initialMachine 3).Columns 0).Array (((initialMachine 3).Columns 0).Top - 1) ∧
        ∀ i, i ≠ ((initialMachine 3).Columns 0).Top - 1 →
          i ≠ ((initialMachine 3).Columns 0).Top →
          (m1.Columns 0).Array i = ((initialMachine 3).Columns 0).Array i) :=
  moveDisc_self_move (initialMachine 3) 0 (by decide) (by decide) (by decide) (by decide)

/-- C12 as stated fails on the tower of height 3: `moveDisc(0, 0)` ends
normally, but the cell of the top disc (index 2, holding disc 1) is 0
afterwards and the disc sits at index 3, above `Top`, which is still 3. -/
theorem moveDisc_self_move_counterexample :
    ∃ m1, moveDisc (initialMachine 3) 0 0 = .ok m1 ∧
      ((initialMachine 3).Columns 0).Array 2 = 1 ∧ (m1.Columns 0).Array 2 = 0 ∧
      ((initialMachine 3).Columns 0).Array 3 = 0 ∧ (m1.Columns 0).Array 3 = 1 ∧
      (m1.Columns 0).Top = 3 :=
  ⟨_, rfl, rfl, rfl, rfl, rfl, rfl⟩

/-- C13: for every state and all `src`, `dst` in `{0, 1, 2}` with an empty
source peg, `moveDisc` ends normally and leaves all three pegs (cells and
`Top`) as they were; the counter is incremented once, which adds exactly 1
whenever the counter is below `INT_MAX`, and wraps to `INT_MIN` when the
counter is `INT_MAX`. -/
theorem moveDisc_empty_source (m : Machine) (src dst : Nat) (hs : src < ROWS)
    (hd : dst < ROWS) (h0 : (m.Columns src).Top = 0) :
    ∃ m1, moveDisc m src dst = .ok m1 ∧ m1.Columns = m.Columns ∧
      m1.g_MoveDiscCount = wrapInt (m.g_MoveDiscCount + 1) ∧
      (INT_MIN ≤ m.g_MoveDiscCount → m.g_MoveDiscCount < INT_MAX →
        m1.g_MoveDiscCount = m.g_MoveDiscCount + 1) ∧
      (m.g_MoveDiscCount = INT_MAX → m1.g_MoveDiscCount = INT_MIN) := by
  simp only [ROWS] at hs hd
  refine ⟨incrCount m, moveDisc_empty m src dst hs hd h0, rfl, rfl, ?_, ?_⟩
  · intro hc1 hc2
    exact wrapInt_of_range _ (by unfold INT_MIN at *; unfold INT_MAX at hc2; omega)
      (by unfold INT_MAX at *; omega)
  · intro hc
    show wrapInt (m.g_MoveDiscCount + 1) = INT_MIN
    rw [hc]; decide

theorem moveDisc_empty_source_witness :
    ∃ m1, moveDisc { startMachine with g_MoveDiscCount := INT_MAX } 0 1 = .ok m1 ∧
      m1.Columns = startMachine.Columns ∧
      m1.g_MoveDiscCount = wrapInt (INT_MAX + 1) ∧
      (INT_MIN ≤ INT_MAX → INT_MAX < INT_MAX → m1.g_MoveDiscCount = INT_MAX + 1) ∧
      (INT_MAX = INT_MAX → m1.g_MoveDiscCount = INT_MIN) :=
  moveDisc_empty_source { startMachine with g_MoveDiscCount := INT_MAX } 0 1 (by decide)
    (by decide) rfl

/-- C14, as amended: for every `a` in `{0, 1, 2}`, `findRow(a, a)` returns
normally; the result is `(a + 1) mod 3`, a peg index different from `a`. -/
theorem findRow_same_denied (a : Nat) (ha : a < ROWS) :
    findRow a a = .ok ((a + 1) % 3) ∧ (a + 1) % 3 < ROWS ∧ (a + 1) % 3 ≠ a := by
  simp only [ROWS] at *
  interval_cases a <;> decide

theorem findRow_same_denied_witness :
    findRow 2 2 = .ok ((2 + 1) % 3) ∧ (2 + 1) % 3 < ROWS ∧ (2 + 1) % 3 ≠ 2 :=
  findRow_same_denied 2 (by decide)

/-- C14 as stated fails for each of the three indices: `findRow(0, 0)`,
`findRow(1, 1)` and `findRow(2, 2)` return the peg indices 1, 2 and 0. -/
theorem findRow_same_denied_counterexample :
    findRow 0 0 = .ok 1 ∧ findRow 1 1 = .ok 2 ∧ findRow 2 2 = .ok 0 := by
  decide

theorem find_first_of_three (p : Nat → Bool) (a b c : Nat) :
    List.find? p [a, b, c] =
      if p a = true then some a else if p b = true then some b
      else if p c = true then some c else none := by
  simp only [List.find?]
  cases p a <;> cases p b <;> cases p c <;> simp

/-- C18: for all values `deny1`, `deny2` (in particular all 8-bit ones, valid
peg indices or not, equal or not), the loop of `findRow` ends within 3
iterations and returns the first of `(deny1+1) mod 3`,
`((deny1+1) mod 3 + 1) mod 3`, `((deny1+1) mod 3 + 2) mod 3` that equals
neither `deny1` nor `deny2`; the result is in `{0, 1, 2}` and differs from
both. -/
theorem findRow_scans_from_deny1 (deny1 deny2 : Nat) :
    ∃ r, findRow deny1 deny2 = .ok r ∧ findRowLoop 3 deny1 deny2 deny1 = .ok r ∧
      List.find? (fun x => decide (x ≠ deny1 ∧ x ≠ deny2))
        [(deny1 + 1) % 3, ((deny1 + 1) % 3 + 1) % 3, ((deny1 + 1) % 3 + 2) % 3] = some r ∧
      r < ROWS ∧ r ≠ deny1 ∧ r ≠ deny2 := by
  have h3 : (deny1 + 1) % 3 < 3 := Nat.mod_lt _ (by decide)
  simp only [findRow, findRowLoop, u8, ROWS, find_first_of_three, decide_eq_true_eq]
  generalize (deny1 + 1) % 3 = r1 at h3 ⊢
  interval_cases r1 <;> simp only [Nat.reduceAdd, Nat.reduceMod] <;> split_ifs <;>
    first
    | exact ⟨_, rfl, rfl, rfl, by omega, by omega, by omega⟩
    | (exfalso; omega)

/-! ## Runs of `move` on arbitrary states -/

theorem findRow_range (a b : Nat) : ∃ r, findRow a b = .ok r ∧ r < 3 ∧ r ≠ a ∧ r ≠ b := by
  have h3 : (a + 1) % 3 < 3 := Nat.mod_lt _ (by decide)
  simp only [findRow, findRowLoop, u8, ROWS]
  generalize (a + 1) % 3 = r1 at h3 ⊢
  interval_cases r1 <;> simp only [Nat.reduceAdd, Nat.reduceMod] <;> split_ifs <;>
    first
    | exact ⟨_, rfl, by omega, by omega, by omega⟩
    | (exfalso; omega)

theorem cellsBelow_split (a : Nat → Nat) (k n : Nat) :
    cellsBelow a (k + n) = cellsBelow (fun i => a (k + i)) n ++ cellsBelow a k := by
  induction n with
  | zero => simp [cellsBelow]
  | succ n ih =>
    show cellsBelow a (k + n + 1) = _
    simp only [cellsBelow, ih, List.cons_append]

theorem cellsBelow_inj (a b : Nat → Nat) (k : Nat) (h : cellsBelow a k = cellsBelow b k) :
    ∀ i, i < k → a i = b i := by
  induction k with
  | zero => intro i hi; omega
  | succ k ih =>
    simp only [cellsBelow, List.cons.injEq] at h
    intro i hi
    rcases Nat.lt_succ_iff_lt_or_eq.1 hi with h1 | h1
    · exact ih h.2 i h1
    · subst h1; exact h.1

theorem transfer_cells (m : Machine) (src dst n : Nat) (hs : src < 3) (hd : dst < 3)
    (hne : src ≠ dst)
    (hdesc : ∀ r, r < 3 → (m.Columns r).Descending)
    (h1 : 1 ≤ n) (hn : n ≤ (m.Columns src).Top)
    (hsmall : ∀ i, (m.Columns src).Top - n ≤ i → i < (m.Columns src).Top →
      ∀ r, r < 3 → r ≠ src → ∀ j, j < (m.Columns r).Top →
        (m.Columns src).Array i < (m.Columns r).Array j)
    (hcs : (m.Columns src).Top ≤ 100) (hcd : (m.Columns dst).Top + n ≤ 100)
    (hca : (m.Columns (3 - src - dst)).Top + (n - 1) ≤ 100) :
    ∃ final calls, move m src dst n = .ok (final, calls) ∧
      (final.Columns dst).Top = (m.Columns dst).Top + n ∧
      (∀ j, j < (m.Columns dst).Top → (final.Columns dst).Array j = (m.Columns dst).Array j) ∧
      (∀ k, k < n → (final.Columns dst).Array ((m.Columns dst).Top + k) =
        (m.Columns src).Array ((m.Columns src).Top - n + k)) ∧
      (final.Columns src).Top = (m.Columns src).Top - n ∧
      (∀ i, i < (m.Columns src).Top - n →
        (final.Columns src).Array i = (m.Columns src).Array i) ∧
      (final.Columns (3 - src - dst)).Top = (m.Columns (3 - src - dst)).Top ∧
      (∀ j, j < (m.Columns (3 - src - dst)).Top →
        (final.Columns (3 - src - dst)).Array j = (m.Columns (3 - src - dst)).Array j) ∧
      (∀ r, r < 3 → (final.Columns r).Descending) ∧
      calls.length = 2 ^ n - 1 ∧ (∀ c ∈ calls, c.Legal) ∧ Chain m calls final := by
  obtain ⟨k, rfl⟩ : ∃ k, n = k + 1 := ⟨n - 1, by omega⟩
  have ha3 : 3 - src - dst < 3 := by omega
  have hasrc : 3 - src - dst ≠ src := by omega
  have hadst : 3 - src - dst ≠ dst := by omega
  -- the upper `k + 1` discs of the source and the rest below them
  have hT : (m.Columns src).Top = ((m.Columns src).Top - (k + 1)) + (k + 1) := by omega
  have hsrc : m.discs src =
      cellsBelow (fun i => (m.Columns src).Array ((m.Columns src).Top - (k + 1) + i)) (k + 1) ++
        cellsBelow (m.Columns src).Array ((m.Columns src).Top - (k + 1)) := by
    unfold Machine.discs LIFO_t.discs
    conv_lhs => rw [hT]
    exact cellsBelow_split _ _ _
  have hsortedsrc := hdesc src hs
  have hpw : (cellsBelow (fun i => (m.Columns src).Array ((m.Columns src).Top - (k + 1) + i))
      (k + 1)).Pairwise (· < ·) := by
    rw [cellsBelow_pairwise]
    intro i j hij hj
    exact hsortedsrc _ _ (by omega) (by omega)
  have hrest : ∀ x ∈ cellsBelow (fun i =>
      (m.Columns src).Array ((m.Columns src).Top - (k + 1) + i)) (k + 1),
      ∀ y ∈ cellsBelow (m.Columns src).Array ((m.Columns src).Top - (k + 1)), x < y := by
    intro x hx y hy
    obtain ⟨i, hi, rfl⟩ := (mem_cellsBelow _ _ _).1 hx
    obtain ⟨j, hj, rfl⟩ := (mem_cellsBelow _ _ _).1 hy
    exact hsortedsrc _ _ (by omega) (by omega)
  have hother : ∀ r, r < 3 → r ≠ src → ∀ x ∈ cellsBelow (fun i =>
      (m.Columns src).Array ((m.Columns src).Top - (k + 1) + i)) (k + 1),
      ∀ y ∈ m.discs r, x < y := by
    intro r hr hrs x hx y hy
    obtain ⟨i, hi, rfl⟩ := (mem_cellsBelow _ _ _).1 hx
    obtain ⟨j, hj, rfl⟩ := (mem_cellsBelow _ _ _).1 hy
    exact hsmall _ (by omega) (by omega) r hr hrs j hj
  obtain ⟨final, calls, hrun, fsrc, fdst, faux, hlen, _, hlegal, hchain⟩ :=
    moveFuel_transfer_aux k 256 m src dst _ _ (by omega) (by omega) hs hd hne hsrc
      (cellsBelow_length _ _) hpw hrest (hother dst hd (Ne.symm hne))
      (hother _ ha3 hasrc)
      (by rw [discs_length]; exact hcs) (by rw [discs_length]; exact hcd)
      (by rw [discs_length]; omega)
  -- back to cells
  have tsrc : (final.Columns src).Top = (m.Columns src).Top - (k + 1) := by
    rw [← discs_length, fsrc, cellsBelow_length]
  have tdst : (final.Columns dst).Top = (m.Columns dst).Top + (k + 1) := by
    rw [← discs_length, fdst, List.length_append, cellsBelow_length, discs_length]; omega
  have taux : (final.Columns (3 - src - dst)).Top = (m.Columns (3 - src - dst)).Top := by
    rw [← discs_length, faux, discs_length]
  have csrc : cellsBelow (final.Columns src).Array ((m.Columns src).Top - (k + 1)) =
      cellsBelow (m.Columns src).Array ((m.Columns src).Top - (k + 1)) := by
    have := fsrc
    unfold Machine.discs LIFO_t.discs at this
    rw [tsrc] at this
    exact this
  have caux : cellsBelow (final.Columns (3 - src - dst)).Array
        (m.Columns (3 - src - dst)).Top =
      cellsBelow (m.Columns (3 - src - dst)).Array (m.Columns (3 - src - dst)).Top := by
    have := faux
    unfold Machine.discs LIFO_t.discs at this
    rw [taux] at this
    exact this
  have cdst : cellsBelow (fun i => (final.Columns dst).Array ((m.Columns dst).Top + i)) (k + 1) =
        cellsBelow (fun i => (m.Columns src).Array ((m.Columns src).Top - (k + 1) + i)) (k + 1) ∧
      cellsBelow (final.Columns dst).Array (m.Columns dst).Top =
        cellsBelow (m.Columns dst).Array (m.Columns dst).Top := by
    have := fdst
    unfold Machine.discs LIFO_t.discs at this
    rw [tdst, cellsBelow_split] at this
    exact List.append_inj this (by simp [cellsBelow_length])
  refine ⟨final, calls, hrun, tdst, cellsBelow_inj _ _ _ cdst.2, ?_, tsrc,
    cellsBelow_inj _ _ _ csrc, taux, cellsBelow_inj _ _ _ caux, ?_, hlen, hlegal, hchain⟩
  · intro i hi
    exact cellsBelow_inj _ _ _ cdst.1 i hi
  · intro r hr
    rw [descending_iff]
    show (final.discs r).Pairwise (· < ·)
    by_cases hrs : r = src
    · subst hrs
      rw [fsrc]
      have := (descending_iff _).1 hsortedsrc
      change (m.discs r).Pairwise (· < ·) at this
      rw [hsrc] at this
      exact (List.pairwise_append.1 this).2.1
    · by_cases hrd : r = dst
      · subst hrd
        rw [fdst]
        exact List.pairwise_append.2 ⟨hpw, (descending_iff _).1 (hdesc r hr),
          hother r hr hrs⟩
      · have : r = 3 - src - dst := by omega
        subst this
        rw [faux]
        exact (descending_iff _).1 (hdesc _ hr)

theorem initialMachine_descending (h : Nat) :
    ∀ r, r < 3 → ((initialMachine h).Columns r).Descending := by
  intro r _ i j hij hj
  by_cases hr : r = 0
  · subst hr
    simp only [initialMachine, if_true] at hj ⊢
    have hi : i < h := by omega
    simp only [hi, hj, if_true]
    omega
  · simp [initialMachine, hr] at hj

/-! ## Zero padding and `findHeight` -/

theorem legal_padded (c : Call) (hc : c.Legal) (hp : c.pre.Padded) : c.post.Padded := by
  obtain ⟨_, _, _, _, _, _, _, heq⟩ := legal_effect c hc
  obtain ⟨hs, hd, hne, hpos, _⟩ := hc
  have psrc := hp c.src hs
  have pdst := hp c.dst hd
  intro r hr
  rw [heq]
  by_cases hrd : r = c.dst
  · subst hrd
    simp only [discMoved, if_true]
    constructor
    · intro i hi
      have : i ≠ (c.pre.Columns c.dst).Top := by omega
      simp only [this, if_false]
      exact pdst.1 i (by omega)
    · intro i hi
      by_cases hiT : i = (c.pre.Columns c.dst).Top
      · simp only [hiT, if_true]
        exact psrc.2 _ (by omega)
      · simp only [hiT, if_false]
        exact pdst.2 i (by omega)
  · by_cases hrs : r = c.src
    · subst hrs
      simp only [discMoved, hrd, if_false, if_true]
      constructor
      · intro i hi
        by_cases hiT : i = (c.pre.Columns c.src).Top - 1
        · simp only [hiT, if_true]
        · simp only [hiT, if_false]
          exact psrc.1 i (by omega)
      · intro i hi
        have : i ≠ (c.pre.Columns c.src).Top - 1 := by omega
        simp only [this, if_false]
        exact psrc.2 i (by omega)
    · simp only [discMoved, hrd, hrs, if_false]
      exact hp r hr

theorem initialMachine_padded (h : Nat) : (initialMachine h).Padded := by
  intro r _
  by_cases hr : r = 0
  · subst hr
    simp only [initialMachine, if_true]
    constructor
    · intro i hi
      have : ¬ i < h := by omega
      simp only [this, if_false]
    · intro i hi
      simp only [hi, if_true]
      omega
  · simp [initialMachine, hr]

theorem findHeightCells_spec (m : Machine) (i : Nat) (hi : i < 3) : ∀ (k j ret : Nat),
    j + k ≤ 100 →
    ∃ v, findHeightCells m i k j ret = .ok v ∧ ret ≤ v ∧
      (∀ x, j ≤ x → x < j + k → (m.Columns i).Array x ≤ v) ∧
      (v = ret ∨ ∃ x, j ≤ x ∧ x < j + k ∧ (m.Columns i).Array x = v) := by
  intro k
  induction k with
  | zero =>
    intro j ret _
    exact ⟨ret, rfl, Nat.le_refl _, fun x h1 h2 => by omega, Or.inl rfl⟩
  | succ k ih =>
    intro j ret hjk
    have hj : j < 100 := by omega
    obtain ⟨v, hrun, hle, hall, hex⟩ :=
      ih (j + 1) (if (m.Columns i).Array j > ret then (m.Columns i).Array j else ret) (by omega)
    refine ⟨v, ?_, ?_, ?_, ?_⟩
    · simp only [findHeightCells, loadCell, ROWS, LEVELS_MAX, hi, hj, and_self, if_true,
        Outcome.bind]
      exact hrun
    · split at hle <;> omega
    · intro x h1 h2
      by_cases hx : x = j
      · subst hx; split at hle <;> omega
      · exact hall x (by omega) (by omega)
    · rcases hex with h | ⟨x, h1, h2, h3⟩
      · split at h
        · exact Or.inr ⟨j, Nat.le_refl _, by omega, h.symm⟩
        · exact Or.inl h
      · exact Or.inr ⟨x, by omega, by omega, h3⟩

theorem findHeightRows_spec (m : Machine) : ∀ (k i ret : Nat), i + k ≤ 3 →
    ∃ v, findHeightRows m k i ret = .ok v ∧ ret ≤ v ∧
      (∀ r, i ≤ r → r < i + k → ∀ x, x < 100 → (m.Columns r).Array x ≤ v) ∧
      (v = ret ∨ ∃ r x, i ≤ r ∧ r < i + k ∧ x < 100 ∧ (m.Columns r).Array x = v) := by
  intro k
  induction k with
  | zero =>
    intro i ret _
    exact ⟨ret, rfl, Nat.le_refl _, fun r h1 h2 => by omega, Or.inl rfl⟩
  | succ k ih =>
    intro i ret hik
    obtain ⟨v1, hrun1, hle1, hall1, hex1⟩ :=
      findHeightCells_spec m i (by omega) 100 0 ret (by omega)
    obtain ⟨v, hrun, hle, hall, hex⟩ := ih (i + 1) v1 (by omega)
    refine ⟨v, ?_, by omega, ?_, ?_⟩
    · simp only [findHeightRows, LEVELS_MAX, hrun1, Outcome.bind]
      exact hrun
    · intro r h1 h2 x hx
      by_cases hr : r = i
      · subst hr
        have := hall1 x (by omega) (by omega)
        omega
      · exact hall r (by omega) (by omega) x hx
    · rcases hex with h | ⟨r, x, h1, h2, h3, h4⟩
      · rcases hex1 with h5 | ⟨x, _, h6, h7⟩
        · exact Or.inl (by omega)
        · exact Or.inr ⟨i, x, Nat.le_refl _, by omega, by omega, by omega⟩
      · exact Or.inr ⟨r, x, by omega, by omega, h3, h4⟩

/-- When no cell exceeds `h` and some cell holds `h`, `findHeight` returns `h`. -/
theorem findHeight_eq (m : Machine) (h : Nat)
    (hall : ∀ r, r < 3 → ∀ x, x < 100 → (m.Columns r).Array x ≤ h)
    (hex : ∃ r x, r < 3 ∧ x < 100 ∧ (m.Columns r).Array x = h) :
    findHeight m = .ok h := by
  obtain ⟨v, hrun, _, hle, hv⟩ := findHeightRows_spec m 3 0 0 (by omega)
  obtain ⟨r, x, hr, hx, hval⟩ := hex
  have h1 : h ≤ v := by
    have := hle r (by omega) (by omega) x hx
    omega
  have h2 : v ≤ h := by
    rcases hv with h0 | ⟨r2, x2, _, hr2, hx2, hval2⟩
    · omega
    · have := hall r2 (by omega) x2 hx2
      omega
  have : v = h := by omega
  subst this
  exact hrun

theorem printLine_eq (m : Machine) (idx : Nat) (hidx : idx < 100) :
    printLine m idx ROWS 0 =
      .ok ((List.range ROWS).map fun j => (m.Columns j).Array idx) := by
  simp [printLine, loadCell, ROWS, LEVELS_MAX, hidx, Outcome.bind, List.range_succ]

theorem printLines_eq (m : Machine) (height : Nat) (hh : height ≤ 100) : ∀ (k i : Nat),
    i + k ≤ height →
    printLines m height k i =
      .ok ((List.range' i k).map fun i1 =>
        (List.range ROWS).map fun j => (m.Columns j).Array (height - 1 - i1)) := by
  intro k
  induction k with
  | zero => intro i _; rfl
  | succ k ih =>
    intro i hik
    have hidx : height - 1 - i < 100 := by omega
    simp only [printLines, printLine_eq m _ hidx, Outcome.bind, ih (i + 1) (by omega),
      List.range'_succ, List.map_cons]

theorem tower_states_padded (h : Nat) (final : Machine) (calls : List Call)
    (hchain : Chain (initialMachine h) calls final) (hlegal : ∀ c ∈ calls, c.Legal) :
    ∀ s ∈ statesOf (initialMachine h) calls, s.Padded :=
  chain_invariant Machine.Padded (fun c hc hp => legal_padded c hc hp) calls
    (initialMachine h) final (initialMachine_padded h) hchain hlegal

theorem mem_allDiscs (s : Machine) (v : Nat) :
    v ∈ s.allDiscs ↔ ∃ r i, r < 3 ∧ i < (s.Columns r).Top ∧ (s.Columns r).Array i = v := by
  simp only [Machine.allDiscs, List.mem_append, Machine.discs, LIFO_t.discs, mem_cellsBelow]
  constructor
  · rintro ((⟨i, h1, h2⟩ | ⟨i, h1, h2⟩) | ⟨i, h1, h2⟩)
    · exact ⟨0, i, by omega, h1, h2⟩
    · exact ⟨1, i, by omega, h1, h2⟩
    · exact ⟨2, i, by omega, h1, h2⟩
  · rintro ⟨r, i, hr, h1, h2⟩
    interval_cases r
    · exact Or.inl (Or.inl ⟨i, h1, h2⟩)
    · exact Or.inl (Or.inr ⟨i, h1, h2⟩)
    · exact Or.inr ⟨i, h1, h2⟩

/-- In a zero-padded state whose discs are exactly `1, ..., h`, `findHeight`
returns `h` and no peg is higher than `h`. -/
theorem tower_state_height (h : Nat) (s : Machine) (h1 : 1 ≤ h) (h100 : h ≤ 100)
    (hcount : ∀ v, s.allDiscs.count v = (List.range' 1 h).count v) (hpad : s.Padded) :
    findHeight s = .ok h ∧ ∀ r, r < 3 → (s.Columns r).Top ≤ h := by
  have hperm : s.allDiscs.Perm (List.range' 1 h) := List.perm_iff_count.2 hcount
  have hsum : (s.Columns 0).Top + (s.Columns 1).Top + (s.Columns 2).Top = h := by
    rw [← allDiscs_length, hperm.length_eq, List.length_range']
  have htop : ∀ r, r < 3 → (s.Columns r).Top ≤ h := by
    intro r hr
    interval_cases r <;> omega
  refine ⟨findHeight_eq s h ?_ ?_, htop⟩
  · intro r hr x _
    by_cases hx : x < (s.Columns r).Top
    · have hmem : (s.Columns r).Array x ∈ s.allDiscs :=
        (mem_allDiscs s _).2 ⟨r, x, hr, hx, rfl⟩
      have := (List.mem_range'_1.1 (hperm.mem_iff.1 hmem)).2
      omega
    · rw [(hpad r hr).1 x (by omega)]
      omega
  · have hmem : h ∈ s.allDiscs := hperm.mem_iff.2 (List.mem_range'_1.2 ⟨by omega, by omega⟩)
    obtain ⟨r, i, hr, hi, hval⟩ := (mem_allDiscs s h).1 hmem
    have := htop r hr
    exact ⟨r, i, hr, by omega, hval⟩

/-- C19: for every height `h` with `2 ≤ h ≤ 100`, `main` builds the state
`initialMachine h`, and in that state and in the state after each `moveDisc`
call made during `solve`, on each of the three pegs every cell of the array at
an index `≥ Top` is 0 and every cell at an index `< Top` is non-zero. -/
theorem solve_states_zero_padded (h : Nat) (m0 : Machine) (h2 : 2 ≤ h) (h100 : h ≤ 100) :
    setup m0 (h : Int) = .ok (initialMachine h) ∧
    ∃ final calls, solve (initialMachine h) (h : Int) = .ok (final, calls) ∧
      ∀ s ∈ statesOf (initialMachine h) calls, ∀ r, r < ROWS →
        (∀ i, (s.Columns r).Top ≤ i → i < LEVELS_MAX → (s.Columns r).Array i = 0) ∧
        (∀ i, i < (s.Columns r).Top → (s.Columns r).Array i ≠ 0) := by
  obtain ⟨final, calls, hrun, _, _, _, _, _, hlegal, hchain⟩ :=
    solve_tower h (initialMachine h) (by omega) h100 (initialMachine_isTower h)
  refine ⟨setup_eq m0 h h100, final, calls, hrun, fun s hs r hr => ?_⟩
  have hp := tower_states_padded h final calls hchain hlegal s hs r hr
  exact ⟨fun i hi _ => hp.1 i hi, hp.2⟩

theorem solve_states_zero_padded_witness :
    setup startMachine ((3 : Nat) : Int) = .ok (initialMachine 3) ∧
    ∃ final calls, solve (initialMachine 3) ((3 : Nat) : Int) = .ok (final, calls) ∧
      ∀ s ∈ statesOf (initialMachine 3) calls, ∀ r, r < ROWS →
        (∀ i, (s.Columns r).Top ≤ i → i < LEVELS_MAX → (s.Columns r).Array i = 0) ∧
        (∀ i, i < (s.Columns r).Top → (s.Columns r).Array i ≠ 0) :=
  solve_states_zero_padded 3 startMachine (by decide) (by decide)

/-- C20: for every height `h` with `2 ≤ h ≤ 100`, on the initial state and on
the state after each `moveDisc` call made during `solve`, `findHeight` returns
`h`; `printState` ends normally and prints `h` lines, line `i` showing the
cells at index `h - 1 - i`, which lies in `0 .. h-1` and inside the 100-cell
array; and every peg has `Top ≤ h`. -/
theorem solve_states_findHeight (h : Nat) (h2 : 2 ≤ h) (h100 : h ≤ 100) :
    ∃ final calls, solve (initialMachine h) (h : Int) = .ok (final, calls) ∧
      ∀ s ∈ statesOf (initialMachine h) calls,
        findHeight s = .ok h ∧
        (∃ lines, printState s = .ok lines ∧ lines.length = h ∧
          lines = (List.range h).map fun i =>
            (List.range ROWS).map fun j => (s.Columns j).Array (h - 1 - i)) ∧
        (∀ i, i < h → h - 1 - i < h ∧ h - 1 - i < LEVELS_MAX) ∧
        ∀ r, r < ROWS → (s.Columns r).Top ≤ h := by
  obtain ⟨final, calls, hrun, _, _, _, _, _, hlegal, hchain⟩ :=
    solve_tower h (initialMachine h) (by omega) h100 (initialMachine_isTower h)
  refine ⟨final, calls, hrun, fun s hs => ?_⟩
  have hcount := tower_states_count h (initialMachine h) final calls
    (initialMachine_isTower h) hchain hlegal s hs
  have hpad := tower_states_padded h final calls hchain hlegal s hs
  obtain ⟨hfh, htop⟩ := tower_state_height h s (by omega) h100 hcount hpad
  refine ⟨hfh, ⟨_, ?_, ?_, rfl⟩, ?_, htop⟩
  · simp only [printState, hfh, Outcome.bind, printLines_eq s h h100 h 0 (by omega),
      List.range_eq_range']
  · simp
  · intro i hi
    simp only [LEVELS_MAX]
    omega

theorem solve_states_findHeight_witness :
    ∃ final calls, solve (initialMachine 3) ((3 : Nat) : Int) = .ok (final, calls) ∧
      ∀ s ∈ statesOf (initialMachine 3) calls,
        findHeight s = .ok 3 ∧
        (∃ lines, printState s = .ok lines ∧ lines.length = 3 ∧
          lines = (List.range 3).map fun i =>
            (List.range ROWS).map fun j => (s.Columns j).Array (3 - 1 - i)) ∧
        (∀ i, i < 3 → 3 - 1 - i < 3 ∧ 3 - 1 - i < LEVELS_MAX) ∧
        ∀ r, r < ROWS → (s.Columns r).Top ≤ 3 :=
  solve_states_findHeight 3 (by decide) (by decide)

/-! ## Sub-tower transfer: output and cells above `Top` -/

theorem legal_cells_bounded (b : Nat) (c : Call) (hc : c.Legal)
    (hb : ∀ r, r < 3 → ∀ x, x < 100 → (c.pre.Columns r).Array x ≤ b) :
    ∀ r, r < 3 → ∀ x, x < 100 → (c.post.Columns r).Array x ≤ b := by
  obtain ⟨_, _, _, _, _, _, _, heq⟩ := legal_effect c hc
  obtain ⟨hs, _, _, hpos, hle, _⟩ := hc
  simp only [ROWS, LEVELS_MAX] at hs hle
  intro r hr x hx
  rw [heq]
  by_cases hrd : r = c.dst
  · subst hrd
    simp only [discMoved, if_true]
    split
    · exact hb c.src hs _ (by omega)
    · exact hb c.dst hr x hx
  · by_cases hrs : r = c.src
    · subst hrs
      simp only [discMoved, hrd, if_false, if_true]
      split
      · exact Nat.zero_le _
      · exact hb c.src hr x hx
    · simp only [discMoved, hrd, hrs, if_false]
      exact hb r hr x hx

/-- A legal call leaves every cell at or above `Top` either as it was in the
reference state `m0` or cleared to 0, provided this held before the call. -/
theorem legal_above_top (m0 : Machine) (c : Call) (hc : c.Legal)
    (hg : ∀ r, r < 3 → ∀ i, (c.pre.Columns r).Top ≤ i →
      (c.pre.Columns r).Array i = (m0.Columns r).Array i ∨ (c.pre.Columns r).Array i = 0) :
    ∀ r, r < 3 → ∀ i, (c.post.Columns r).Top ≤ i →
      (c.post.Columns r).Array i = (m0.Columns r).Array i ∨ (c.post.Columns r).Array i = 0 := by
  obtain ⟨_, _, _, _, _, _, _, heq⟩ := legal_effect c hc
  obtain ⟨hs, _, _, hpos, _⟩ := hc
  intro r hr i
  rw [heq]
  by_cases hrd : r = c.dst
  · subst hrd
    simp only [discMoved, if_true]
    intro hi
    have : i ≠ (c.pre.Columns c.dst).Top := by omega
    simp only [this, if_false]
    exact hg c.dst hr i (by omega)
  · by_cases hrs : r = c.src
    · subst hrs
      simp only [discMoved, hrd, if_false, if_true]
      intro hi
      by_cases hiT : i = (c.pre.Columns c.src).Top - 1
      · simp only [hiT, if_true]; exact Or.inr trivial
      · simp only [hiT, if_false]
        exact hg c.src hr i (by omega)
    · simp only [discMoved, hrd, hrs, if_false]
      exact hg r hr i

/-- When no cell of the three arrays exceeds 100, `printState` stays inside the
arrays. -/
theorem printState_ok (s : Machine)
    (hb : ∀ r, r < 3 → ∀ x, x < 100 → (s.Columns r).Array x ≤ 100) :
    ∃ lines, printState s = .ok lines := by
  obtain ⟨v, hrun, _, _, hv⟩ := findHeightRows_spec s 3 0 0 (by omega)
  have hv100 : v ≤ 100 := by
    rcases hv with h0 | ⟨r, x, _, hr, hx, hval⟩
    · omega
    · have := hb r (by omega) x hx
      omega
  have hf : findHeight s = .ok v := hrun
  refine ⟨(List.range' 0 v).map fun i1 =>
    (List.range ROWS).map fun j => (s.Columns j).Array (v - 1 - i1), ?_⟩
  rw [printState, hf]
  exact printLines_eq s v hv100 v 0 (by omega)

theorem chain_final_mem (calls : List Call) : ∀ (m final : Machine), Chain m calls final →
    final ∈ statesOf m calls := by
  induction calls with
  | nil => intro m final h; simp only [Chain] at h; simp [statesOf, h]
  | cons c cs ih =>
    intro m final h
    simp only [Chain] at h
    have := ih c.post final h.2
    simp only [statesOf, List.map_cons, List.mem_cons] at this ⊢
    rcases this with h1 | h1
    · exact Or.inr (Or.inl h1)
    · exact Or.inr (Or.inr h1)

theorem initialMachine_cells_le (h : Nat) (h100 : h ≤ 100) :
    ∀ r, r < 3 → ∀ x, x < 100 → ((initialMachine h).Columns r).Array x ≤ 100 := by
  intro r _ x _
  by_cases hr : r = 0
  · subst hr
    simp only [initialMachine, if_true]
    split <;> omega
  · simp [initialMachine, hr]

/-- C16, as amended: for every state whose three pegs are strictly decreasing
from bottom to top and whose array cells are all at most 100, all distinct
`src`, `dst` in `{0, 1, 2}` (`aux = 3 - src - dst`) and every `n` with
`1 ≤ n ≤ Top[src]` such that each of the top `n` discs of `src` is smaller than
every disc on the other two pegs and no `Top` can exceed 100
(`Top[src] ≤ 100`, `Top[dst] + n ≤ 100`, `Top[aux] + n - 1 ≤ 100`):
`move(state, src, dst, n)` ends normally, and so does `printState` on the
state before the run and on the state after each `moveDisc` call; the former
top `n` discs of `src` sit on top of the previous contents of `dst` in the same
order; the remaining `Top[src] - n` discs of `src` are unchanged; the auxiliary
peg holds the same discs as before (same `Top`, same cells below `Top`), and
each of its cells at or above `Top` is either unchanged or 0; all pegs are
strictly decreasing again; and exactly `2^n - 1` calls of `moveDisc` were
made. -/
theorem move_transfers_subtower (m : Machine) (src dst n : Nat) (hs : src < ROWS)
    (hd : dst < ROWS) (hne : src ≠ dst)
    (hdesc : ∀ r, r < ROWS → (m.Columns r).Descending)
    (hcell : ∀ r, r < ROWS → ∀ x, x < LEVELS_MAX → (m.Columns r).Array x ≤ LEVELS_MAX)
    (h1 : 1 ≤ n) (hn : n ≤ (m.Columns src).Top)
    (hsmall : ∀ i, (m.Columns src).Top - n ≤ i → i < (m.Columns src).Top →
      ∀ r, r < ROWS → r ≠ src → ∀ j, j < (m.Columns r).Top →
        (m.Columns src).Array i < (m.Columns r).Array j)
    (hcs : (m.Columns src).Top ≤ LEVELS_MAX) (hcd : (m.Columns dst).Top + n ≤ LEVELS_MAX)
    (hca : (m.Columns (3 - src - dst)).Top + (n - 1) ≤ LEVELS_MAX) :
    ∃ final calls, move m src dst n = .ok (final, calls) ∧
      (∀ s ∈ statesOf m calls, ∃ lines, printState s = .ok lines) ∧
      (final.Columns dst).Top = (m.Columns dst).Top + n ∧
      (∀ j, j < (m.Columns dst).Top → (final.Columns dst).Array j = (m.Columns dst).Array j) ∧
      (∀ k, k < n → (final.Columns dst).Array ((m.Columns dst).Top + k) =
        (m.Columns src).Array ((m.Columns src).Top - n + k)) ∧
      (final.Columns src).Top = (m.Columns src).Top - n ∧
      (∀ i, i < (m.Columns src).Top - n →
        (final.Columns src).Array i = (m.Columns src).Array i) ∧
      (final.Columns (3 - src - dst)).Top = (m.Columns (3 - src - dst)).Top ∧
      (∀ j, j < (m.Columns (3 - src - dst)).Top →
        (final.Columns (3 - src - dst)).Array j = (m.Columns (3 - src - dst)).Array j) ∧
      (∀ i, (m.Columns (3 - src - dst)).Top ≤ i →
        (final.Columns (3 - src - dst)).Array i = (m.Columns (3 - src - dst)).Array i ∨
        (final.Columns (3 - src - dst)).Array i = 0) ∧
      (∀ r, r < ROWS → (final.Columns r).Descending) ∧
      calls.length = 2 ^ n - 1 := by
  simp only [ROWS, LEVELS_MAX] at *
  obtain ⟨final, calls, hrun, a1, a2, a3, a4, a5, a6, a7, a8, a9, hlegal, hchain⟩ :=
    transfer_cells m src dst n hs hd hne hdesc h1 hn hsmall hcs hcd hca
  have hfinal : final ∈ statesOf m calls := chain_final_mem calls m final hchain
  have hprint : ∀ s ∈ statesOf m calls, ∃ lines, printState s = .ok lines := by
    intro s hs1
    exact printState_ok s
      (chain_invariant (fun s => ∀ r, r < 3 → ∀ x, x < 100 → (s.Columns r).Array x ≤ 100)
        (fun c hc hp => legal_cells_bounded 100 c hc hp) calls m final hcell hchain hlegal s hs1)
  have habove := chain_invariant
    (fun s => ∀ r, r < 3 → ∀ i, (s.Columns r).Top ≤ i →
      (s.Columns r).Array i = (m.Columns r).Array i ∨ (s.Columns r).Array i = 0)
    (fun c hc hp => legal_above_top m c hc hp) calls m final
    (fun r _ i _ => Or.inl rfl) hchain hlegal final hfinal (3 - src - dst) (by omega)
  refine ⟨final, calls, hrun, hprint, a1, a2, a3, a4, a5, a6, a7, ?_, a8, a9⟩
  intro i hi
  exact habove i (by rw [a6]; exact hi)

theorem move_transfers_subtower_witness :
    ∃ final calls, move (initialMachine 3) 0 2 2 = .ok (final, calls) ∧
      (∀ s ∈ statesOf (initialMachine 3) calls, ∃ lines, printState s = .ok lines) ∧
      (final.Columns 2).Top = ((initialMachine 3).Columns 2).Top + 2 ∧
      (∀ j, j < ((initialMachine 3).Columns 2).Top →
        (final.Columns 2).Array j = ((initialMachine 3).Columns 2).Array j) ∧
      (∀ k, k < 2 → (final.Columns 2).Array (((initialMachine 3).Columns 2).Top + k) =
        ((initialMachine 3).Columns 0).Array (((initialMachine 3).Columns 0).Top - 2 + k)) ∧
      (final.Columns 0).Top = ((initialMachine 3).Columns 0).Top - 2 ∧
      (∀ i, i < ((initialMachine 3).Columns 0).Top - 2 →
        (final.Columns 0).Array i = ((initialMachine 3).Columns 0).Array i) ∧
      (final.Columns (3 - 0 - 2)).Top = ((initialMachine 3).Columns (3 - 0 - 2)).Top ∧
      (∀ j, j < ((initialMachine 3).Columns (3 - 0 - 2)).Top →
        (final.Columns (3 - 0 - 2)).Array j =
          ((initialMachine 3).Columns (3 - 0 - 2)).Array j) ∧
      (∀ i, ((initialMachine 3).Columns (3 - 0 - 2)).Top ≤ i →
        (final.Columns (3 - 0 - 2)).Array i =
          ((initialMachine 3).Columns (3 - 0 - 2)).Array i ∨
        (final.Columns (3 - 0 - 2)).Array i = 0) ∧
      (∀ r, r < ROWS → (final.Columns r).Descending) ∧
      calls.length = 2 ^ 2 - 1 :=
  move_transfers_subtower (initialMachine 3) 0 2 2 (by decide) (by decide) (by decide)
    (initialMachine_descending 3) (initialMachine_cells_le 3 (by decide)) (by decide)
    (by decide)
    (fun i _ _ r hr hrs j hj => by
      simp only [ROWS] at hr
      interval_cases r
      · exact absurd rfl hrs
      · exact absurd hj (Nat.not_lt_zero j)
      · exact absurd hj (Nat.not_lt_zero j))
    (by decide) (by decide) (by decide)

/-- C16 as stated fails at two inputs that meet all its conditions.  On the
state with the tower `2, 1` on peg 0, empty pegs 1 and 2 and the stale value 9
in cell 0 of peg 1, `move(0, 2, 2)` parks a disc on peg 1 and clears the cell
when it takes the disc away again: cell 0 of the auxiliary peg is 0 afterwards,
not 9, so that peg is not identical to what it was.  On the state with the
discs 200 and 150 on peg 0, `move(0, 2, 1)` makes its one `moveDisc` call, and
the `printState` call that follows it reads a cell outside the array. -/
theorem move_transfers_subtower_counterexample :
    ((∀ r, r < ROWS → (staleCellMachine.Columns r).Descending) ∧
      (staleCellMachine.Columns 0).Top = 2 ∧ (staleCellMachine.Columns 1).Top = 0 ∧
      (staleCellMachine.Columns 2).Top = 0 ∧
      ∃ final calls, move staleCellMachine 0 2 2 = .ok (final, calls) ∧
        (staleCellMachine.Columns 1).Array 0 = 9 ∧ (final.Columns 1).Array 0 = 0) ∧
    ((∀ r, r < ROWS → (largeDiscMachine.Columns r).Descending) ∧
      (largeDiscMachine.Columns 0).Top = 2 ∧ (largeDiscMachine.Columns 1).Top = 0 ∧
      (largeDiscMachine.Columns 2).Top = 0 ∧
      ∃ final calls, move largeDiscMachine 0 2 1 = .ok (final, calls) ∧
        calls.map Call.post = [final] ∧ printState final = .undefinedBehaviour) := by
  refine ⟨⟨?_, rfl, rfl, rfl, _, _, rfl, rfl, rfl⟩, ⟨?_, rfl, rfl, rfl, ?_⟩⟩
  · intro r hr i j hij hj
    simp only [ROWS] at hr
    interval_cases r
    · have hj2 : j < 2 := hj
      have hi0 : i = 0 := by omega
      have hj1 : j = 1 := by omega
      subst hi0; subst hj1
      decide
    · exact absurd hj (Nat.not_lt_zero j)
    · exact absurd hj (Nat.not_lt_zero j)
  · intro r hr i j hij hj
    simp only [ROWS] at hr
    interval_cases r
    · have hj2 : j < 2 := hj
      have hi0 : i = 0 := by omega
      have hj1 : j = 1 := by omega
      subst hi0; subst hj1
      decide
    · exact absurd hj (Nat.not_lt_zero j)
    · exact absurd hj (Nat.not_lt_zero j)
  · have hmd : moveDisc largeDiscMachine 0 2 = .ok (discMoved largeDiscMachine 0 2) :=
      moveDisc_eq largeDiscMachine 0 2 (by decide) (by decide) (by decide) (by decide)
        (by decide) (by decide)
    have hrun : move largeDiscMachine 0 2 1 = .ok (discMoved largeDiscMachine 0 2,
        [⟨0, 2, largeDiscMachine, discMoved largeDiscMachine 0 2⟩]) := by
      show moveFuel (255 + 1) largeDiscMachine 0 2 1 = _
      rw [moveFuel, if_pos rfl, hmd]
      rfl
    refine ⟨_, _, hrun, rfl, ?_⟩
    have hf : findHeight (discMoved largeDiscMachine 0 2) = .ok 200 := by
      refine findHeight_eq _ 200 (fun r hr x _ => ?_) ⟨0, 0, by decide, by decide, rfl⟩
      interval_cases r <;> simp [discMoved, largeDiscMachine] <;> split_ifs <;> omega
    have hl : printLine (discMoved largeDiscMachine 0 2) (200 - 1 - 0) ROWS 0 =
        .undefinedBehaviour := by
      simp [printLine, loadCell, ROWS, LEVELS_MAX, Outcome.bind]
    show (findHeight (discMoved largeDiscMachine 0 2)).bind
      (fun height => printLines (discMoved largeDiscMachine 0 2) height height 0) = _
    rw [hf]
    show printLines (discMoved largeDiscMachine 0 2) 200 (199 + 1) 0 = _
    rw [printLines, hl]
    rfl

end Hanoi
